import Mathlib

/-!
Verification of the scrape-orchestration core of the kanaver repository.

The development shallowly embeds three JavaScript modules:

* `src/src/services/request_queue.js` — the bounded-concurrency scheduler
  (`RequestQueue`): admission/overflow policy and the retry/backoff chain.
* the Data Integrity Service (`DataIntegrityService`) — content hashing,
  exact and fuzzy deduplication, freshness and new-item detection.
* the Scrape Orchestrator (`ScrapeOrchestrator`) — in-flight collapsing,
  multi-provider aggregation, pagination, and provider health.

Modelling conventions, each justified against the source:

* JavaScript strings are Lean `String`s; the sources only manipulate them
  with `toLowerCase`, `trim`, `length`, `includes`, concatenation and
  per-index comparison, all of which agree with the Lean counterparts on
  the ASCII data the scrapers produce.
* A missing (`undefined`) string field and the empty string are both
  falsy in every truthiness test the sources perform on item fields, so
  item fields are modelled as plain `String` with `""` for absent.
  Likewise `genre` is a `List String` with `[]` for absent (the empty
  array is truthy in JS, but every use — quality scoring and array
  merging — yields the same result for `[]` as for `undefined`).
* `rating` is stored as its numeric value (the source only ever applies
  `parseFloat` to it and compares the result with `0`).
* The MD5 digest of `generateHash` is abstracted as the identity
  fingerprint on the canonical string: the source's contract is only
  that the fingerprint is deterministic, with collisions treated as
  benign rarity, so the canonical string itself is a faithful
  collision-free idealization.
* `Date.now()` is an explicit `now : Nat` parameter.
-/

/-- An item record as produced by the source adapters and consumed by the
Data Integrity Service.  The `id`, `hash`, `processedAt`, `source`,
`sources` and `isNew` fields model the `_id`, `_hash`, `_processedAt`,
`_source`, `_sources` and `_isNew` metadata the services attach. -/
structure Item where
  title : String := ""
  href : String := ""
  thumbnail : String := ""
  description : String := ""
  rating : ℚ := 0
  chapter : String := ""
  genre : List String := []
  author : String := ""
  status : String := ""
  itemType : String := ""
  source : String := ""
  sources : List String := []
  id : String := ""
  hash : String := ""
  processedAt : Option Nat := none
  isNew : Bool := false
  deriving DecidableEq, Repr

/-- Lower-case a string character by character (JS `toLowerCase` on the
ASCII titles the scrapers emit). -/
def strLower (s : String) : String :=
  String.mk (s.toList.map Char.toLower)

/-- JS `String.trim`: strip leading and trailing whitespace. -/
def strTrim (s : String) : String :=
  String.mk (((s.toList.dropWhile Char.isWhitespace).reverse.dropWhile
    Char.isWhitespace).reverse)

/-- `Array.join(sep)` on a list of strings. -/
def joinSep (sep : String) : List String → String
  | [] => ""
  | [x] => x
  | x :: xs => x ++ sep ++ joinSep sep xs

/-- JS `String.split(c)` on a single-character separator. -/
def splitOnCharAux (c : Char) : List Char → List Char → List String
  | [], acc => [String.mk acc.reverse]
  | x :: xs, acc =>
    if x = c then String.mk acc.reverse :: splitOnCharAux c xs []
    else splitOnCharAux c xs (x :: acc)

/-- JS `String.split(c)` on a single-character separator. -/
def splitOnChar (s : String) (c : Char) : List String :=
  splitOnCharAux c s.toList []

/-- Field access used by `generateHash`/`getNestedValue`.  Every call site
in the repository hashes the flat string-valued fields (`title`, `href`,
…), so only those names are addressable; any other path reads as absent. -/
def getField (item : Item) (field : String) : String :=
  match field with
  | "title" => item.title
  | "href" => item.href
  | "thumbnail" => item.thumbnail
  | "description" => item.description
  | "chapter" => item.chapter
  | "author" => item.author
  | "status" => item.status
  | "type" => item.itemType
  | _ => ""

/-- `value ? String(value).toLowerCase().trim() : ''` from `generateHash`:
a falsy (empty) value contributes `''`, otherwise the lower-cased trimmed
value. -/
def canonicalValue (s : String) : String :=
  if s = "" then "" else strTrim (strLower s)

/-- `DataIntegrityService.generateHash`: canonical string of the requested
fields (lower-cased, trimmed, empties skipped, joined by `|`), passed
through the fingerprint function (modelled as the identity, see header). -/
def generateHash (item : Item) (fields : List String) : String :=
  joinSep "|"
    ((fields.map (fun f => canonicalValue (getField item f))).filter (fun v => v ≠ ""))

/-- `DataIntegrityService.generateUniqueId`: prefer the final non-empty
path segment of `href`; fall back to the item's default-field hash. -/
def generateUniqueId (item : Item) : String :=
  if item.href ≠ "" then
    match ((splitOnChar item.href '/').filter (fun p => p ≠ "")).getLast? with
    | some part => "comic_" ++ part
    | none => "comic_" ++ generateHash item ["title", "href"]
  else
    "comic_" ++ generateHash item ["title", "href"]

/-- Title normalization shared by `generateFuzzyKey` and `isFuzzyMatch`:
`title.toLowerCase().replace(/[^a-z0-9]/g, '')`. -/
def normalizeTitle (s : String) : String :=
  String.mk ((strLower s).toList.filter
    (fun c => ('a' ≤ c ∧ c ≤ 'z') ∨ ('0' ≤ c ∧ c ≤ '9')))

/-- `DataIntegrityService.generateFuzzyKey`: normalized title truncated to
20 characters (empty when the item has no usable title). -/
def generateFuzzyKey (item : Item) : String :=
  String.mk ((normalizeTitle item.title).toList.take 20)

/-- Substring containment on character lists (JS `String.includes`). -/
def listContainsSub (l s : List Char) : Bool :=
  match l with
  | [] => s.isEmpty
  | _ :: t => s.isPrefixOf l || listContainsSub t s

/-- Count of index-aligned equal characters between two strings, walking
both from position 0 (the `shorterChars.forEach` loop of
`calculateSimilarity`). -/
def overlapCount : List Char → List Char → Nat
  | a :: as, b :: bs => (if a = b then 1 else 0) + overlapCount as bs
  | _, _ => 0

/-- `DataIntegrityService.calculateSimilarity`, verbatim: early exits for
equal and empty inputs, then containment ratio, then positional
character-overlap ratio.  On equal lengths the source's ternary picks the
second argument as `longer`.  Divisions are exact rationals (`mkRat`);
the double-precision quotients the source compares differ from `0.85` by
far more than the rounding error for strings of these lengths, so the
comparison outcome is identical. -/
def calculateSimilarity (str1 str2 : String) : ℚ :=
  if str1 = str2 then 1
  else if str1 = "" ∨ str2 = "" then 0
  else
    let longer := if str1.length > str2.length then str1 else str2
    let shorter := if str1.length > str2.length then str2 else str1
    if longer.length = 0 then 1
    else if listContainsSub longer.toList shorter.toList then
      mkRat shorter.length longer.length
    else
      mkRat (overlapCount shorter.toList longer.toList) longer.length

/-- `DataIntegrityService.isFuzzyMatch`: both normalized titles must be
non-empty; exact normalized equality matches; otherwise the similarity
must exceed `0.85` strictly. -/
def isFuzzyMatch (item1 item2 : Item) : Bool :=
  let title1 := normalizeTitle item1.title
  let title2 := normalizeTitle item2.title
  if title1 = "" ∨ title2 = "" then false
  else if title1 = title2 then true
  else decide (calculateSimilarity title1 title2 > mkRat 17 20)

/-- `DataIntegrityService.getQualityScore`: sum of independent field
bonuses. -/
def getQualityScore (item : Item) : Nat :=
  (if item.title.length > 0 then 10 else 0) +
  (if item.thumbnail.length > 10 then 15 else 0) +
  (if item.description.length > 50 then 15 else 0) +
  (if item.rating > 0 then 10 else 0) +
  (if item.chapter.length > 0 then 10 else 0) +
  min (item.genre.length * 3) 15 +
  (if item.author.length > 0 then 10 else 0) +
  (if item.status.length > 0 then 5 else 0) +
  (if item.itemType.length > 0 then 5 else 0) +
  (if item.href.length > 0 then 5 else 0)

/-- Per-field merge rule of `mergeItems` for string-valued fields: take the
secondary when the primary is absent, otherwise keep the longer string. -/
def mergeStringField (p s : String) : String :=
  if p = "" ∧ s ≠ "" then s
  else if s.length > p.length then s else p

/-- Per-field merge rule of `mergeItems` for array-valued fields: append
the secondary's entries that are not already present. -/
def mergeArrayField (p s : List String) : List String :=
  s.foldl (fun acc x => if acc.contains x then acc else acc ++ [x]) p

/-- The `_sources` accumulation of `mergeItems`: primary's `_sources` (or
its `_source`, or `"unknown"`), then the secondary's `_source`, first
occurrences kept. -/
def mergeSources (primary secondary : Item) : List String :=
  let base :=
    if primary.sources = [] then
      [if primary.source = "" then "unknown" else primary.source]
    else primary.sources
  (base ++ [if secondary.source = "" then "unknown" else secondary.source]).foldl
    (fun acc v => if acc.contains v then acc else acc ++ [v]) []

/-- `DataIntegrityService.mergeItems` on the requested merge fields.  The
base is a copy of `primary`; only the listed fields consult `secondary`.
The repository only ever passes subsets of
`['genre', 'chapter', 'rating', 'description']` here. -/
def mergeItems (primary secondary : Item) (fields : List String) : Item :=
  let merged := fields.foldl
    (fun m f =>
      match f with
      | "genre" => { m with genre := mergeArrayField primary.genre secondary.genre }
      | "chapter" => { m with chapter := mergeStringField primary.chapter secondary.chapter }
      | "description" => { m with description := mergeStringField primary.description secondary.description }
      | "rating" =>
        -- ratings are modelled numerically; the absent-primary rule is the
        -- only branch of the source that applies to non-array non-string
        -- values
        { m with rating := if m.rating = 0 ∧ secondary.rating ≠ 0 then secondary.rating else m.rating }
      | "title" => { m with title := mergeStringField primary.title secondary.title }
      | "thumbnail" => { m with thumbnail := mergeStringField primary.thumbnail secondary.thumbnail }
      | _ => m)
    primary
  { merged with sources := mergeSources primary secondary }

/-- The `_id`/`_hash`/`_processedAt` enrichment applied to a freshly
created unique group in `deduplicate`. -/
def enrichItem (item : Item) (fields : List String) (now : Nat) : Item :=
  { item with
    id := generateUniqueId item
    hash := generateHash item fields
    processedAt := some now }

/-- A `uniqueMap` entry of `deduplicate`: the group's current item and the
input index at which the group was created. -/
structure Entry where
  item : Item
  index : Nat
  deriving DecidableEq, Repr

/-- A recorded duplicate of `deduplicate`. -/
structure Duplicate where
  item : Item
  matchedWith : Item
  hash : String
  deriving DecidableEq, Repr

/-- Running state of the `deduplicate` loop: the insertion-ordered
`uniqueMap` (a JS `Map` preserves insertion order, and keys are only ever
inserted, so the association list in insertion order is exact) and the
`duplicates` list. -/
structure DedupState where
  uniqueMap : List (String × Entry)
  duplicates : List Duplicate
  deriving DecidableEq, Repr

/-- Exact-hash lookup followed, on miss and only for items with a usable
fuzzy key, by the in-order fuzzy scan over `uniqueMap.entries()` (the
source `break`s at the first fuzzy match). -/
def findMatch (m : List (String × Entry)) (hash : String) (fuzzyKey : String)
    (item : Item) : Option (String × Entry) :=
  match m.find? (fun ke => ke.1 = hash) with
  | some ke => some ke
  | none =>
    if fuzzyKey ≠ "" then m.find? (fun ke => isFuzzyMatch item ke.2.item)
    else none

/-- Replace the item stored under `key` in the insertion-ordered map. -/
def updateEntry (m : List (String × Entry)) (key : String) (it : Item) :
    List (String × Entry) :=
  m.map (fun ke => if ke.1 = key then (ke.1, { ke.2 with item := it }) else ke)

/-- Strategy resolution of `deduplicate` once a duplicate has been found:
`merge` always merges the new item in, `best_quality` merges the
higher-scoring item over the lower, `newest` merges when the new input
index is later, and any other strategy (`oldest`, or the `'first'` the
orchestrator passes, which falls through every branch) keeps the stored
item unchanged. -/
def applyStrategy (strategy : String) (mergeFields : List String)
    (m : List (String × Entry)) (key : String) (entry : Entry) (item : Item)
    (index : Nat) : List (String × Entry) :=
  if strategy = "merge" then
    updateEntry m key (mergeItems entry.item item mergeFields)
  else if strategy = "best_quality" then
    if getQualityScore item > getQualityScore entry.item then
      updateEntry m key (mergeItems item entry.item mergeFields)
    else m
  else if strategy = "newest" then
    if index > entry.index then
      updateEntry m key (mergeItems item entry.item mergeFields)
    else m
  else m

/-- One iteration of the `items.forEach` body of
`DataIntegrityService.deduplicate`. -/
def dedupStep (fields : List String) (strategy : String) (mergeFields : List String)
    (now : Nat) (st : DedupState) (p : Nat × Item) : DedupState :=
  match findMatch st.uniqueMap (generateHash p.2 fields) (generateFuzzyKey p.2) p.2 with
  | some (key, entry) =>
    { uniqueMap := applyStrategy strategy mergeFields st.uniqueMap key entry p.2 p.1
      duplicates := st.duplicates ++
        [{ item := p.2, matchedWith := entry.item, hash := generateHash p.2 fields }] }
  | none =>
    { uniqueMap := st.uniqueMap ++
        [(generateHash p.2 fields, { item := enrichItem p.2 fields now, index := p.1 })]
      duplicates := st.duplicates }

/-- Result record of `deduplicate` (`duplicateRate` is the percentage the
source formats into a string; `0` for an empty input, where the source
produces the string `"NaN%"`). -/
structure DedupResult where
  items : List Item
  duplicates : List Duplicate
  total : Nat
  unique : Nat
  dupCount : Nat
  duplicateRate : ℚ
  deriving DecidableEq, Repr

/-- `DataIntegrityService.deduplicate` on a list of items.  `processOrder`
coincides with the map's insertion order, so the output items are the
map's entries in order. -/
def deduplicate (items : List Item) (fields : List String) (strategy : String)
    (mergeFields : List String) (now : Nat) : DedupResult :=
  let st := items.enum.foldl (dedupStep fields strategy mergeFields now) ⟨[], []⟩
  let uniqueItems := st.uniqueMap.map (fun ke => ke.2.item)
  { items := uniqueItems
    duplicates := st.duplicates
    total := items.length
    unique := uniqueItems.length
    dupCount := st.duplicates.length
    duplicateRate :=
      if items.length = 0 then 0
      else mkRat (st.duplicates.length * 100) items.length }

/-!  ## Fuzzy-match threshold (C3)  -/

/-- The similarity formula as §4.2 of the specification words it:
`len(shorter)/len(longer)` when the shorter normalized title is contained
in the longer, otherwise the count of index-aligned equal characters
divided by the longer title's length (ties of length resolved as the
implementation resolves them). -/
def specSimilarity (t1 t2 : String) : ℚ :=
  let longer := if t1.length > t2.length then t1 else t2
  let shorter := if t1.length > t2.length then t2 else t1
  if listContainsSub longer.toList shorter.toList then
    mkRat shorter.length longer.length
  else
    mkRat (overlapCount shorter.toList longer.toList) longer.length

/-- Invariant maintained by the `deduplicate` loop under the `oldest`
strategy: every stored key is its stored item's fingerprint, every stored
item is an enriched input item, stored fingerprints are pairwise distinct,
and no later-inserted item fuzzy-matches an earlier one. -/
def DedupInv (fields : List String) (now : Nat) (m : List (String × Entry)) : Prop :=
  (∀ ke ∈ m, ke.1 = generateHash ke.2.item fields ∧ ∃ x, ke.2.item = enrichItem x fields now) ∧
  m.Pairwise (fun a b =>
    generateHash a.2.item fields ≠ generateHash b.2.item fields ∧
    isFuzzyMatch b.2.item a.2.item = false)

/-!
## Scheduler (`RequestQueue`, `src/src/services/request_queue.js`)

A queued request.  `attempts` is the source's `request.attempts` counter,
initialised to 0 at `enqueue` and incremented only in `handleError`;
`createdAt` is the `Date.now()` recorded at submission; `priority` is
`options.priority` (set to `true` when a failed request is re-queued).
The task closure and its future are left abstract: `enqueue`'s outcome
says which request's future is rejected and with which error.
-/
structure Request where
  priority : Bool
  providerId : String
  attempts : Nat
  createdAt : Nat
  deriving DecidableEq, Repr

/-- The errors the queue rejects futures with: `'Request removed from
queue due to overflow'` and `'Queue is full'`. -/
inductive QueueError where
  | overflow
  | queueFull
  deriving DecidableEq, Repr

/-- Outcome of `RequestQueue.enqueue` for the new submission: admitted
(possibly after evicting a queued request, whose future is rejected with
the paired error), or rejected outright. -/
inductive EnqueueResult where
  | admitted (evicted : Option (Request × QueueError))
  | rejected (err : QueueError)
  deriving DecidableEq, Repr

/-- `this.queue.findIndex(r => !r.options.priority)` followed by
`splice(i, 1)`: remove the first non-priority request in queue order. -/
def removeFirstNonPriority : List Request → Option (Request × List Request)
  | [] => none
  | r :: rest =>
    if !r.priority then some (r, rest)
    else
      match removeFirstNonPriority rest with
      | some (x, rest2) => some (x, r :: rest2)
      | none => none

/-- `RequestQueue.enqueue`: when the queue is at capacity, evict the first
non-priority request (its future rejects with the overflow error) or, if
every queued request is priority, reject the new submission with the
queue-full error leaving the queue unchanged; an admitted priority
request is unshifted at the front, a normal one pushed at the back. -/
def enqueue (maxQueueSize : Nat) (queue : List Request) (req : Request) :
    List Request × EnqueueResult :=
  if queue.length ≥ maxQueueSize then
    match removeFirstNonPriority queue with
    | some (evicted, rest) =>
      (if req.priority then req :: rest else rest ++ [req],
        EnqueueResult.admitted (some (evicted, QueueError.overflow)))
    | none => (queue, EnqueueResult.rejected QueueError.queueFull)
  else
    (if req.priority then req :: queue else queue ++ [req],
      EnqueueResult.admitted none)

/-- Result of `RequestQueue.handleError` for one failure: either the
request is re-queued (with the computed backoff delay and the new queue),
or its future is rejected with the terminal error. -/
inductive RetryStep where
  | retried (delay : Nat) (queue : List Request)
  | rejectedFinal (attempts : Nat)
  deriving DecidableEq, Repr

/-- `RequestQueue.handleError`: increment the attempt counter; while
`attempts < retryAttempts`, wait `retryDelay * 2^(attempts-1)` and
unshift the request — now marked priority — at the front of the queue;
otherwise reject the future with the terminal error. -/
def handleError (retryAttempts retryDelay : Nat) (queue : List Request)
    (req : Request) : RetryStep :=
  if req.attempts + 1 < retryAttempts then
    RetryStep.retried (retryDelay * 2 ^ (req.attempts + 1 - 1))
      ({ req with attempts := req.attempts + 1, priority := true } :: queue)
  else
    RetryStep.rejectedFinal (req.attempts + 1)

/-- Terminal outcome of one submitted task, carrying the request's
`attempts` counter at settlement time (`handleSuccess` resolves without
touching the counter; `handleError` rejects after incrementing it). -/
inductive JobOutcome where
  | resolved (recordedAttempts : Nat)
  | rejected (recordedAttempts : Nat)
  deriving DecidableEq, Repr

/-- The execute/`handleError` cycle for a single job whose task fails its
first `failCount` executions and then succeeds, chaining `handleError`
re-queues (the re-queued head request is the one dispatched next) and
collecting the backoff delays.  `handleSuccess` is the base case: it
resolves the future with the request's `attempts` counter as is. -/
def runWithRetries (retryAttempts retryDelay : Nat) :
    Nat → Request → JobOutcome × List Nat
  | 0, req => (JobOutcome.resolved req.attempts, [])
  | failCount + 1, req =>
    match handleError retryAttempts retryDelay [] req with
    | RetryStep.retried delay queue =>
      match queue with
      | next :: _ =>
        let rest := runWithRetries retryAttempts retryDelay failCount next
        (rest.1, delay :: rest.2)
      | [] => (JobOutcome.rejected (req.attempts + 1), [])
    | RetryStep.rejectedFinal a => (JobOutcome.rejected a, [])

/-- Concrete full queue for the C4 witness: one priority request and two
non-priority requests in submission order. -/
def witnessQueue : List Request :=
  [⟨true, "a", 0, 4⟩, ⟨false, "b", 0, 1⟩, ⟨false, "c", 0, 2⟩]

/-- Concrete new submission for the C4 witness. -/
def witnessReq : Request := ⟨false, "d", 0, 9⟩

/-!
## Orchestrator (`ScrapeOrchestrator`)
-/

/-- Per-provider health record
(`ScrapeOrchestrator.providerHealth` entries). -/
structure ProviderHealth where
  successCount : Nat
  failureCount : Nat
  totalResponseTime : Nat
  lastSuccess : Option Nat
  lastFailure : Option Nat
  consecutiveFailures : Nat
  deriving DecidableEq, Repr

/-- The zero record `updateProviderHealth` starts from for an unseen
provider. -/
def defaultHealth : ProviderHealth := ⟨0, 0, 0, none, none, 0⟩

/-- `ScrapeOrchestrator.updateProviderHealth` on one settled job: a
success bumps `successCount`, stamps `lastSuccess`, resets
`consecutiveFailures` and accumulates response time; a failure bumps
`failureCount`, stamps `lastFailure` and increments
`consecutiveFailures`. -/
def updateProviderHealth (health : ProviderHealth) (success : Bool)
    (responseTime now : Nat) : ProviderHealth :=
  if success then
    { health with
      successCount := health.successCount + 1
      lastSuccess := some now
      consecutiveFailures := 0
      totalResponseTime := health.totalResponseTime + responseTime }
  else
    { health with
      failureCount := health.failureCount + 1
      lastFailure := some now
      consecutiveFailures := health.consecutiveFailures + 1 }

/-- `ScrapeOrchestrator.isProviderHealthy`: a provider with no record is
assumed healthy; otherwise unhealthy on ≥ 5 consecutive failures, or on
≥ 10 total recorded attempts with a failure ratio strictly above 50%. -/
def isProviderHealthy (health : Option ProviderHealth) : Bool :=
  match health with
  | none => true
  | some h =>
    if h.consecutiveFailures ≥ 5 then false
    else if h.successCount + h.failureCount ≥ 10 ∧
        mkRat h.failureCount (h.successCount + h.failureCount) > mkRat 1 2 then false
    else true

/-- Result record of `DataIntegrityService.detectNewItems`. -/
structure NewItemsResult where
  newItems : List Item
  existingItems : List Item
  allNew : Bool
  deriving DecidableEq, Repr

/-- One iteration of the `currentData.forEach` loop of `detectNewItems`:
accumulate the current fingerprint set and partition the item into new
(tagged `_isNew`) or existing. -/
def detectStep (previousHashes : List String)
    (acc : List String × List Item × List Item) (item : Item) :
    List String × List Item × List Item :=
  let h := generateHash item ["title", "href"]
  let cur := if acc.1.contains h then acc.1 else acc.1 ++ [h]
  if previousHashes.contains h then (cur, acc.2.1, acc.2.2 ++ [item])
  else (cur, acc.2.1 ++ [{ item with isNew := true }], acc.2.2)

/-- The current fingerprint set a `detectNewItems` call computes (a JS
`Set` in insertion order), independent of the stored baseline. -/
def fingerprintSet (data : List Item) : List String :=
  data.foldl
    (fun s item =>
      let h := generateHash item ["title", "href"]
      if s.contains h then s else s ++ [h]) []

/-- `DataIntegrityService.detectNewItems` against an explicit previous
fingerprint set; returns the partition and the current fingerprint set
that replaces the stored one. -/
def detectNewItems (currentData : List Item) (previousHashes : List String) :
    NewItemsResult × List String :=
  let r := currentData.foldl (detectStep previousHashes) ([], [], [])
  ({ newItems := r.2.1
     existingItems := r.2.2
     allNew := decide (r.2.2.length = 0 ∧ 0 < r.2.1.length) }, r.1)

/-- The `dedupe_` prefix `detectNewItems` adds to its context key. -/
def dedupeKeyOf (context : String) : String := "dedupe_" ++ context

/-- JS `Map.set` on the dedupe index: replace the entry in place, or
append a fresh one. -/
def setIndex : List (String × List String) → String → List String →
    List (String × List String)
  | [], k, v => [(k, v)]
  | kv :: t, k, v => if kv.1 = k then (k, v) :: t else kv :: setIndex t k v

/-- `detectNewItems` against the service's `dedupeIndex`: read the
previous generation's set for the context (empty when absent), partition,
and replace the stored set wholesale. -/
def detectNewItemsCtx (index : List (String × List String)) (context : String)
    (currentData : List Item) : NewItemsResult × List (String × List String) :=
  let r := detectNewItems currentData ((index.lookup (dedupeKeyOf context)).getD [])
  (r.1, setIndex index (dedupeKeyOf context) r.2)

/-- The shape of one provider's successful `scrape` payload as
`aggregateResults` sees it: a flat item list, a pagination wrapper
(unwrapped one layer), or anything else (contributing nothing). -/
inductive ScrapeData where
  | list (items : List Item)
  | paged (items : List Item)
  | other
  deriving DecidableEq, Repr

/-- `ScrapeOrchestrator.aggregateResults`: concatenate each successful
provider's items tagged with `_source` (the `strategy` argument of the
source is ignored by its body). -/
def aggregateResults (results : List (String × ScrapeData)) : List Item :=
  results.foldl
    (fun acc pr =>
      match pr.2 with
      | ScrapeData.list items => acc ++ items.map (fun it => { it with source := pr.1 })
      | ScrapeData.paged items => acc ++ items.map (fun it => { it with source := pr.1 })
      | ScrapeData.other => acc) []

/-- The record `scrapeMultiProvider` returns on the non-throwing path. -/
structure MultiResult where
  success : Bool
  data : List Item
  requested : List String
  successful : List String
  failed : List String
  newItemsCount : Nat
  deriving DecidableEq, Repr

/-- `ScrapeOrchestrator.scrapeMultiProvider` over the settled per-provider
outcomes (`some` payload for a fulfilled provider, `none` for a failed or
timed-out one; the per-provider promises never reject, each `catch`es into
a failure record).  Throws when the provider list is empty, or when the
failure rate strictly exceeds `failureThreshold` with zero successes;
otherwise aggregates, deduplicates with `best_quality` on
`['title','href']`, runs new-item detection against the shared
`multi_`-context baseline, and reports per-provider successful/failed
lists with `success` true iff at least one provider succeeded.  (The
updated dedupe index held by `detectNewItemsCtx` is a service side effect
not carried in the return value.) -/
def scrapeMultiProvider (outcomes : List (String × Option ScrapeData))
    (failureThreshold : ℚ) (index : List (String × List String))
    (operation : String) (now : Nat) : Except String MultiResult :=
  if outcomes.length = 0 then Except.error "No healthy providers available"
  else
    let results := outcomes.filterMap (fun o => o.2.map (fun d => (o.1, d)))
    let errors := outcomes.filter (fun o => o.2.isNone)
    if mkRat errors.length outcomes.length > failureThreshold ∧ results.length = 0 then
      Except.error "Too many provider failures"
    else
      let aggregated := (deduplicate (aggregateResults results) ["title", "href"]
        "best_quality" ["genre", "chapter", "rating", "description"] now).items
      Except.ok
        { success := decide (0 < results.length)
          data := aggregated
          requested := outcomes.map (fun o => o.1)
          successful := results.map (fun r => r.1)
          failed := (errors.map (fun e => e.1)).filter (fun s => s ≠ "")
          newItemsCount :=
            (detectNewItemsCtx index ("multi_" ++ operation) aggregated).1.newItems.length }

/-- Orchestrator state for in-flight collapsing: the `activeOperations`
map (operation key → pending-promise id), a fresh-id counter, and the log
of Source Adapter submissions made so far (one entry per
`executeScrape`).  The source performs the in-flight check, both cache
probes, the freshness check and the `activeOperations.set` without any
intervening `await`, so the whole admission runs atomically on the event
loop and is modelled as one step. -/
structure OrchState where
  active : List (String × Nat)
  nextId : Nat
  dispatchLog : List (String × Nat)
  deriving DecidableEq, Repr

/-- How a `scrape` call is admitted: join an in-flight execution's
pending promise, return the cached value, or start (dispatch) a new
execution. -/
inductive StartResult where
  | joined (pid : Nat)
  | cacheHit
  | started (pid : Nat)
  deriving DecidableEq, Repr

/-- The `finally` of `ScrapeOrchestrator.scrape`:
`this.activeOperations.delete(operationKey)`, run whenever the call
leaves the `try` — at settlement for a call that dispatched, but also
immediately on the early-return paths (join and cache hit), since those
`return` statements sit inside the `try` (keys are unique in the map, so
deleting the entry is the filter). -/
def scrapeFinish (st : OrchState) (key : String) : OrchState :=
  { st with active := st.active.filter (fun kp => kp.1 ≠ key) }

/-- Steps 2–5 of `ScrapeOrchestrator.scrape`, together with the `finally`
that its early returns trigger: return the in-flight promise for the key
if one exists — and, because that `return` is inside the `try`, run the
`finally` at once, deleting the (still pending) in-flight marker;
otherwise return the cached value (unless `skipCache`/`forceRefresh`),
re-checking the cache when the data is still fresh, likewise running the
`finally` (a no-op here, the key not being registered); otherwise
register the key as in-flight and submit the Source Adapter call (this
path's `finally` runs later, at settlement).  `cached` abstracts a cache
hit for the key and `stale` the freshness verdict for the operation. -/
def scrapeStart (st : OrchState) (key : String)
    (cached skipCache forceRefresh stale : Bool) : OrchState × StartResult :=
  match st.active.lookup key with
  | some pid => (scrapeFinish st key, StartResult.joined pid)
  | none =>
    if !skipCache ∧ !forceRefresh ∧ cached then (scrapeFinish st key, StartResult.cacheHit)
    else if !stale ∧ !forceRefresh ∧ cached then (scrapeFinish st key, StartResult.cacheHit)
    else
      (⟨st.active ++ [(key, st.nextId)], st.nextId + 1,
          st.dispatchLog ++ [(key, st.nextId)]⟩,
        StartResult.started st.nextId)

/-- One fetched page as `scrapePaginated` sees `result.data`: an error,
a flat item list, or a pagination wrapper (with possibly absent
`current_page`/`length_page`). -/
inductive PageFetch where
  | failure (msg : String)
  | items (data : List Item)
  | paged (data : List Item) (currentPage : Option Nat) (lengthPage : Option Nat)
  deriving DecidableEq, Repr

/-- Does this fetched page carry zero items?  (An error is not an empty
page.) -/
def pageEmpty : PageFetch → Bool
  | PageFetch.failure _ => false
  | PageFetch.items data => data.isEmpty
  | PageFetch.paged data _ _ => data.isEmpty

/-- One `pageResults` entry of `scrapePaginated`. -/
structure PageLog where
  page : Nat
  count : Nat
  success : Bool
  error : Option String
  deriving DecidableEq, Repr

/-- Running state of the `scrapePaginated` page loop. -/
structure PagState where
  allData : List Item
  pageResults : List PageLog
  consecutiveEmpty : Nat
  lastPagination : Option (Option Nat × Option Nat)
  deriving DecidableEq, Repr

/-- The duplicate rate of a new page against the cumulative data: dedup
the concatenation with strategy `'first'` (which falls through every
strategy branch, keeping first-seen items), count the net-new unique
items, and take `1 - newItems / pageData.length` (exact rationals; the
JS subtraction can go negative, hence the `Int` numerator). -/
def dupRate (allData pageData : List Item) (now : Nat) : ℚ :=
  1 - mkRat
    ((((deduplicate (allData ++ pageData) ["title", "href"] "first"
        ["genre", "chapter", "rating", "description"] now).items.length : Int)
      - (allData.length : Int)))
    pageData.length

/-- Whether the page loop breaks after this page or advances. -/
inductive LoopCmd where
  | stop (st : PagState)
  | next (st : PagState)
  deriving DecidableEq, Repr

/-- The body of `scrapePaginated`'s loop for a successfully fetched page,
in source order: bump or reset `consecutiveEmpty` and break on the second
consecutive empty page (when `stopOnEmpty`); break when the duplicate
rate against the cumulative set reaches `duplicateThreshold` (when
`stopOnDuplicate` and both sides are non-empty); otherwise accumulate the
page, log it, record its pagination, and break if the source reports the
current page is at or past `length_page`. -/
def pagSuccess (stopOnEmpty stopOnDuplicate : Bool) (duplicateThreshold : ℚ)
    (now currentPage : Nat) (st : PagState) (pageData : List Item)
    (pagination : Option (Option Nat × Option Nat)) : LoopCmd :=
  let consecutiveEmpty := if pageData.length = 0 then st.consecutiveEmpty + 1 else 0
  if pageData.length = 0 ∧ stopOnEmpty = true ∧ st.consecutiveEmpty + 1 ≥ 2 then
    LoopCmd.stop { st with consecutiveEmpty := consecutiveEmpty }
  else if stopOnDuplicate = true ∧ 0 < st.allData.length ∧ 0 < pageData.length ∧
      dupRate st.allData pageData now ≥ duplicateThreshold then
    LoopCmd.stop { st with consecutiveEmpty := consecutiveEmpty }
  else
    let st2 : PagState :=
      { allData := st.allData ++ pageData
        pageResults := st.pageResults ++ [⟨currentPage, pageData.length, true, none⟩]
        consecutiveEmpty := consecutiveEmpty
        lastPagination := pagination }
    match pagination with
    | some (_, some lengthPage) =>
      if currentPage ≥ lengthPage then LoopCmd.stop st2 else LoopCmd.next st2
    | _ => LoopCmd.next st2

/-- The `while (currentPage <= startPage + maxPages - 1)` loop of
`scrapePaginated`, fuelled by the number of pages left (every iteration
advances `currentPage` by one, so the fuel is exact).  A fetch error is
logged and aborts the loop when `stopOnEmpty` is set, otherwise the loop
advances past it. -/
def pagLoop (fetch : Nat → PageFetch) (stopOnEmpty stopOnDuplicate : Bool)
    (duplicateThreshold : ℚ) (now : Nat) :
    Nat → Nat → PagState → PagState
  | 0, _, st => st
  | remaining + 1, currentPage, st =>
    match fetch currentPage with
    | PageFetch.failure msg =>
      let st2 := { st with
        pageResults := st.pageResults ++ [⟨currentPage, 0, false, some msg⟩] }
      if stopOnEmpty then st2
      else pagLoop fetch stopOnEmpty stopOnDuplicate duplicateThreshold now
        remaining (currentPage + 1) st2
    | PageFetch.items data =>
      match pagSuccess stopOnEmpty stopOnDuplicate duplicateThreshold now
          currentPage st data none with
      | LoopCmd.stop st2 => st2
      | LoopCmd.next st2 =>
        pagLoop fetch stopOnEmpty stopOnDuplicate duplicateThreshold now
          remaining (currentPage + 1) st2
    | PageFetch.paged data cp lp =>
      match pagSuccess stopOnEmpty stopOnDuplicate duplicateThreshold now
          currentPage st data (some (cp, lp)) with
      | LoopCmd.stop st2 => st2
      | LoopCmd.next st2 =>
        pagLoop fetch stopOnEmpty stopOnDuplicate duplicateThreshold now
          remaining (currentPage + 1) st2

/-- The record `scrapePaginated` returns. -/
structure PaginatedResult where
  success : Bool
  data : List Item
  pagination : Option (Option Nat × Option Nat)
  pageResults : List PageLog
  totalItems : Nat
  uniqueItems : Nat
  duplicatesRemoved : Nat
  deriving DecidableEq, Repr

/-- `ScrapeOrchestrator.scrapePaginated` over a page oracle `fetch`: run
the page loop from `startPage` for at most `maxPages` pages, then apply
the final `best_quality` dedup pass over the cumulative data. -/
def scrapePaginated (fetch : Nat → PageFetch) (maxPages startPage : Nat)
    (stopOnEmpty stopOnDuplicate : Bool) (duplicateThreshold : ℚ) (now : Nat) :
    PaginatedResult :=
  let final := pagLoop fetch stopOnEmpty stopOnDuplicate duplicateThreshold now
    maxPages startPage ⟨[], [], 0, none⟩
  let dedup := deduplicate final.allData ["title", "href"] "best_quality"
    ["genre", "chapter", "rating", "description"] now
  { success := decide (0 < final.allData.length)
    data := dedup.items
    pagination := final.lastPagination
    pageResults := final.pageResults
    totalItems := final.allData.length
    uniqueItems := dedup.items.length
    duplicatesRemoved := dedup.dupCount }

/-- Concrete page oracle for the C9 counterexample: pages 1 and 2 are
empty, page 3 carries one item. -/
def cexFetch : Nat → PageFetch := fun p =>
  if p = 3 then PageFetch.items [{ title := "x", href := "/m/x" }]
  else PageFetch.items []

/-- Concrete oracles for the C9 (amended) witness: every page of
`emptyFetch` is empty; `emptyFetch2` differs only at page 7, beyond the
agreed prefix. -/
def emptyFetch : Nat → PageFetch := fun _ => PageFetch.items []

/-- See `emptyFetch`. -/
def emptyFetch2 : Nat → PageFetch := fun p =>
  if p = 7 then PageFetch.items [{ title := "y", href := "/m/y" }]
  else PageFetch.items []

theorem strLength_ne_zero_of_ne_empty (s : String) (h : s ≠ "") : s.length ≠ 0 := by
  intro hlen
  apply h
  cases s with
  | mk data =>
    cases data with
    | nil => rfl
    | cons a l => simp [String.length, List.length] at hlen

theorem calculateSimilarity_eq_spec (t1 t2 : String) (h1 : t1 ≠ "") (h2 : t2 ≠ "")
    (hne : t1 ≠ t2) : calculateSimilarity t1 t2 = specSimilarity t1 t2 := by
  unfold calculateSimilarity specSimilarity
  rw [if_neg hne, if_neg (by simp [h1, h2])]
  have hlen : ¬((if t1.length > t2.length then t1 else t2).length = 0) := by
    split
    · exact strLength_ne_zero_of_ne_empty t1 h1
    · exact strLength_ne_zero_of_ne_empty t2 h2
  rw [if_neg hlen]

/-- C3.  For every pair of items whose normalized titles are non-empty and
not exactly equal after normalization, `deduplicate`'s fuzzy comparison
(`isFuzzyMatch`) accepts them as a fuzzy match if and only if the
similarity — `len(shorter)/len(longer)` on containment, otherwise the
index-aligned character-overlap ratio over the longer length — strictly
exceeds 0.85; similarity exactly 0.85 does not match. -/
theorem fuzzyMatch_iff_similarity_gt_085 (i1 i2 : Item)
    (h1 : normalizeTitle i1.title ≠ "") (h2 : normalizeTitle i2.title ≠ "")
    (hne : normalizeTitle i1.title ≠ normalizeTitle i2.title) :
    isFuzzyMatch i1 i2 = true ↔
      specSimilarity (normalizeTitle i1.title) (normalizeTitle i2.title) > mkRat 17 20 := by
  unfold isFuzzyMatch
  rw [if_neg (by simp [h1, h2]), if_neg hne,
    calculateSimilarity_eq_spec _ _ h1 h2 hne]
  exact decide_eq_true_iff

/-- Witness for C3 at the boundary: titles of normalized lengths 17 and 20
with containment give similarity exactly 17/20 = 0.85, which does not
match; lengths 18 and 20 give 0.9 > 0.85, which does. -/
theorem fuzzyMatch_iff_similarity_gt_085_witness :
    (isFuzzyMatch { title := "abcdefghijklmnopq" } { title := "abcdefghijklmnopqrst" } = true ↔
      specSimilarity "abcdefghijklmnopq" "abcdefghijklmnopqrst" > mkRat 17 20) ∧
    (isFuzzyMatch { title := "abcdefghijklmnopqr" } { title := "abcdefghijklmnopqrst" } = true ↔
      specSimilarity "abcdefghijklmnopqr" "abcdefghijklmnopqrst" > mkRat 17 20) ∧
    isFuzzyMatch { title := "abcdefghijklmnopq" } { title := "abcdefghijklmnopqrst" } = false ∧
    isFuzzyMatch { title := "abcdefghijklmnopqr" } { title := "abcdefghijklmnopqrst" } = true :=
  ⟨fuzzyMatch_iff_similarity_gt_085 _ _ (by decide) (by decide) (by decide),
   fuzzyMatch_iff_similarity_gt_085 _ _ (by decide) (by decide) (by decide),
   by decide, by decide⟩

/-!  ## Hash of items with no usable dedup fields (C10)  -/

theorem generateHash_empty_of_all_empty (item : Item) (fields : List String)
    (h : ∀ f ∈ fields, canonicalValue (getField item f) = "") :
    generateHash item fields = "" := by
  have hfil : (fields.map (fun f => canonicalValue (getField item f))).filter
      (fun v => v ≠ "") = [] := by
    rw [List.filter_eq_nil_iff]
    intro a ha
    rcases List.mem_map.mp ha with ⟨f, hf, rfl⟩
    simp [h f hf]
  rw [generateHash, hfil]
  rfl

theorem updateEntry_keys (m : List (String × Entry)) (key : String) (it : Item) :
    (updateEntry m key it).map Prod.fst = m.map Prod.fst := by
  induction m with
  | nil => rfl
  | cons ke t ih =>
    simp only [updateEntry, List.map_cons] at ih ⊢
    split <;> simp_all

theorem applyStrategy_keys (strategy : String) (mergeFields : List String)
    (m : List (String × Entry)) (key : String) (entry : Entry) (item : Item)
    (index : Nat) :
    (applyStrategy strategy mergeFields m key entry item index).map Prod.fst =
      m.map Prod.fst := by
  unfold applyStrategy
  split
  · exact updateEntry_keys ..
  · split
    · split
      · exact updateEntry_keys ..
      · rfl
    · split
      · split
        · exact updateEntry_keys ..
        · rfl
      · rfl

theorem single_key_list (l : List (String × Entry))
    (h : l.map Prod.fst = [""]) : ∃ e2, l = [("", e2)] := by
  match l with
  | [] => simp at h
  | [(k, e2)] =>
    simp only [List.map_cons, List.map_nil, List.cons.injEq, and_true] at h
    exact ⟨e2, by simp [h]⟩
  | a :: b :: t => simp at h

theorem dedupStep_single (fields : List String) (strategy : String)
    (mergeFields : List String) (now : Nat) (st : DedupState) (e : Entry)
    (p : Nat × Item) (hst : st.uniqueMap = [("", e)])
    (hp : generateHash p.2 fields = "") :
    ∃ e2, (dedupStep fields strategy mergeFields now st p).uniqueMap = [("", e2)] := by
  obtain ⟨m, dups⟩ := st
  simp only at hst
  subst hst
  have hfind : findMatch [("", e)] (generateHash p.2 fields)
      (generateFuzzyKey p.2) p.2 = some ("", e) := by
    rw [hp]
    simp [findMatch]
  unfold dedupStep
  simp only [hfind]
  exact single_key_list _ (by
    rw [applyStrategy_keys]
    simp)

theorem dedup_foldl_single (fields : List String) (strategy : String)
    (mergeFields : List String) (now : Nat) :
    ∀ (l : List (Nat × Item)) (st : DedupState) (e : Entry),
      (∀ p ∈ l, generateHash p.2 fields = "") → st.uniqueMap = [("", e)] →
      ∃ e2, (l.foldl (dedupStep fields strategy mergeFields now) st).uniqueMap = [("", e2)] := by
  intro l
  induction l with
  | nil => exact fun st e _ hst => ⟨e, hst⟩
  | cons p t ih =>
    intro st e hall hst
    obtain ⟨e2, h2⟩ := dedupStep_single fields strategy mergeFields now st e p hst
      (hall p (List.mem_cons_self p t))
    exact ih _ e2 (fun q hq => hall q (List.mem_cons_of_mem p hq)) h2

theorem snd_mem_of_mem_enumFrom {α : Type} :
    ∀ (l : List α) (n : Nat) (p : Nat × α), p ∈ l.enumFrom n → p.2 ∈ l := by
  intro l
  induction l with
  | nil => intro n p h; simp [List.enumFrom] at h
  | cons a t ih =>
    intro n p h
    simp only [List.enumFrom, List.mem_cons] at h
    rcases h with h | h
    · simp [h]
    · exact List.mem_cons_of_mem a (ih (n + 1) p h)

/-- C10.  Items in which every requested hash field is missing or empty
after trimming all share the fingerprint of the empty canonical string,
so `deduplicate` collapses them all into a single unique group. -/
theorem allEmptyFields_same_hash_single_group (items : List Item)
    (fields mergeFields : List String) (strategy : String) (now : Nat)
    (hall : ∀ it ∈ items, ∀ f ∈ fields, canonicalValue (getField it f) = "") :
    (∀ i1 ∈ items, ∀ i2 ∈ items,
      generateHash i1 fields = generateHash i2 fields ∧ generateHash i1 fields = "") ∧
    (deduplicate items fields strategy mergeFields now).unique = min 1 items.length := by
  constructor
  · intro i1 h1 i2 h2
    rw [generateHash_empty_of_all_empty i1 fields (hall i1 h1),
      generateHash_empty_of_all_empty i2 fields (hall i2 h2)]
    exact ⟨rfl, rfl⟩
  · cases hitems : items with
    | nil => simp [deduplicate, List.enum]
    | cons x t =>
      have hhash : ∀ p ∈ (x :: t).enum, generateHash p.2 fields = "" := by
        intro p hp
        exact generateHash_empty_of_all_empty p.2 fields
          (hall p.2 (by rw [hitems]; exact snd_mem_of_mem_enumFrom _ 0 p hp))
      have hfirst : (dedupStep fields strategy mergeFields now ⟨[], []⟩ (0, x)).uniqueMap
          = [("", { item := enrichItem x fields now, index := 0 })] := by
        unfold dedupStep
        have : findMatch [] (generateHash x fields) (generateFuzzyKey x) x = none := by
          unfold findMatch
          simp
        rw [this]
        simp [hhash (0, x) (by simp [List.enum, List.enumFrom])]
      have henum : (x :: t).enum = (0, x) :: t.enumFrom 1 := by
        simp [List.enum, List.enumFrom]
      obtain ⟨efin, hfin⟩ := dedup_foldl_single fields strategy mergeFields now
        (t.enumFrom 1) _ _ (fun p hp => hhash p (by rw [henum]; exact List.mem_cons_of_mem _ hp)) hfirst
      unfold deduplicate
      rw [henum]
      simp only [List.foldl_cons]
      rw [hfin]
      simp

/-- Witness for C10: three items — empty titles or whitespace-only title,
no `href` — collapse to one unique group. -/
theorem allEmptyFields_same_hash_single_group_witness :
    (∀ i1 ∈ [({ title := " " } : Item), {}, { title := "", href := "" }],
      ∀ i2 ∈ [({ title := " " } : Item), {}, { title := "", href := "" }],
        generateHash i1 ["title", "href"] = generateHash i2 ["title", "href"] ∧
        generateHash i1 ["title", "href"] = "") ∧
    (deduplicate [{ title := " " }, {}, { title := "", href := "" }]
      ["title", "href"] "newest" ["genre", "chapter", "rating", "description"] 5).unique =
      min 1 3 :=
  allEmptyFields_same_hash_single_group _ _ _ _ 5 (by decide)

/-!  ## Deduplication idempotence (C6)  -/

theorem applyStrategy_oldest (mergeFields : List String) (m : List (String × Entry))
    (key : String) (entry : Entry) (item : Item) (index : Nat) :
    applyStrategy "oldest" mergeFields m key entry item index = m := by
  simp [applyStrategy]

theorem enrichItem_idem (item : Item) (fields : List String) (now : Nat) :
    enrichItem (enrichItem item fields now) fields now = enrichItem item fields now := rfl

theorem strMk_take_eq_empty (s : String) (h : String.mk (s.toList.take 20) = "") :
    s = "" := by
  cases s with
  | mk data =>
    cases data with
    | nil => rfl
    | cons a l =>
      have := congrArg String.data h
      simp at this

theorem fuzzyKey_empty_no_match (item : Item) (h : generateFuzzyKey item = "")
    (y : Item) : isFuzzyMatch item y = false := by
  have hnt : normalizeTitle item.title = "" :=
    strMk_take_eq_empty _ (by simpa [generateFuzzyKey] using h)
  simp [isFuzzyMatch, hnt]

theorem findMatch_none_of (m : List (String × Entry)) (h fk : String) (item : Item)
    (hkey : ∀ ke ∈ m, ke.1 ≠ h)
    (hfuzz : ∀ ke ∈ m, isFuzzyMatch item ke.2.item = false) :
    findMatch m h fk item = none := by
  unfold findMatch
  rw [List.find?_eq_none.mpr (fun ke hke => by simpa using hkey ke hke)]
  by_cases hfk : fk ≠ ""
  · simp only [if_pos hfk]
    exact List.find?_eq_none.mpr (fun ke hke => by simp [hfuzz ke hke])
  · simp only [if_neg hfk]

theorem findMatch_none_key (m : List (String × Entry)) (h fk : String) (item : Item)
    (hnone : findMatch m h fk item = none) : ∀ ke ∈ m, ke.1 ≠ h := by
  unfold findMatch at hnone
  cases hf : m.find? (fun ke => ke.1 = h) with
  | some v => rw [hf] at hnone; simp at hnone
  | none => exact fun ke hke => by simpa using List.find?_eq_none.mp hf ke hke

theorem findMatch_none_fuzzy (m : List (String × Entry)) (h : String) (item : Item)
    (hnone : findMatch m h (generateFuzzyKey item) item = none) :
    ∀ ke ∈ m, isFuzzyMatch item ke.2.item = false := by
  intro ke hke
  by_cases hfk : generateFuzzyKey item = ""
  · exact fuzzyKey_empty_no_match item hfk _
  · unfold findMatch at hnone
    cases hf : m.find? (fun ke2 => ke2.1 = h) with
    | some v => rw [hf] at hnone; simp at hnone
    | none =>
      rw [hf, if_pos hfk] at hnone
      simpa using List.find?_eq_none.mp hnone ke hke

theorem dedupStep_oldest_inv (fields mergeFields : List String) (now : Nat)
    (st : DedupState) (p : Nat × Item) (hinv : DedupInv fields now st.uniqueMap) :
    DedupInv fields now (dedupStep fields "oldest" mergeFields now st p).uniqueMap := by
  unfold dedupStep
  cases hf : findMatch st.uniqueMap (generateHash p.2 fields) (generateFuzzyKey p.2) p.2 with
  | some v =>
    obtain ⟨key, entry⟩ := v
    simpa only [applyStrategy_oldest] using hinv
  | none =>
    constructor
    · intro ke hke
      rcases List.mem_append.mp hke with hmem | hmem
      · exact hinv.1 ke hmem
      · have hke2 : ke = (generateHash p.2 fields,
            { item := enrichItem p.2 fields now, index := p.1 }) := by simpa using hmem
        subst hke2
        exact ⟨rfl, ⟨p.2, rfl⟩⟩
    · rw [List.pairwise_append]
      refine ⟨hinv.2, List.pairwise_singleton _ _, ?_⟩
      intro a ha b hb
      have hb2 : b = (generateHash p.2 fields,
          { item := enrichItem p.2 fields now, index := p.1 }) := by simpa using hb
      subst hb2
      refine ⟨?_, ?_⟩
      · have := findMatch_none_key _ _ _ _ hf a ha
        rw [(hinv.1 a ha).1] at this
        exact this
      · exact findMatch_none_fuzzy _ _ _ hf a ha

theorem dedup_foldl_oldest_inv (fields mergeFields : List String) (now : Nat) :
    ∀ (l : List (Nat × Item)) (st : DedupState), DedupInv fields now st.uniqueMap →
      DedupInv fields now
        ((l.foldl (dedupStep fields "oldest" mergeFields now) st)).uniqueMap := by
  intro l
  induction l with
  | nil => exact fun st h => h
  | cons p t ih =>
    intro st h
    exact ih _ (dedupStep_oldest_inv fields mergeFields now st p h)

theorem dedup_foldl_clean (fields mergeFields : List String) (now : Nat) :
    ∀ (l : List (Nat × Item)) (st : DedupState),
      (∀ q ∈ l, ∀ ke ∈ st.uniqueMap,
        ke.1 ≠ generateHash q.2 fields ∧ isFuzzyMatch q.2 ke.2.item = false) →
      l.Pairwise (fun a b =>
        generateHash a.2 fields ≠ generateHash b.2 fields ∧ isFuzzyMatch b.2 a.2 = false) →
      (∀ q ∈ l, enrichItem q.2 fields now = q.2) →
      l.foldl (dedupStep fields "oldest" mergeFields now) st =
        ⟨st.uniqueMap ++ l.map (fun q => (generateHash q.2 fields, ⟨q.2, q.1⟩)),
          st.duplicates⟩ := by
  intro l
  induction l with
  | nil => intro st _ _ _; cases st; simp
  | cons q t ih =>
    intro st hst hpair hfix
    simp only [List.foldl_cons]
    have hnone : findMatch st.uniqueMap (generateHash q.2 fields)
        (generateFuzzyKey q.2) q.2 = none :=
      findMatch_none_of _ _ _ _
        (fun ke hke => (hst q (List.mem_cons_self q t) ke hke).1)
        (fun ke hke => (hst q (List.mem_cons_self q t) ke hke).2)
    have hstep : dedupStep fields "oldest" mergeFields now st q =
        ⟨st.uniqueMap ++ [(generateHash q.2 fields,
          { item := q.2, index := q.1 })], st.duplicates⟩ := by
      unfold dedupStep
      rw [hnone]
      rw [hfix q (List.mem_cons_self q t)]
    rw [hstep]
    have hrel : ∀ b ∈ t, generateHash q.2 fields ≠ generateHash b.2 fields ∧
        isFuzzyMatch b.2 q.2 = false := (List.pairwise_cons.mp hpair).1
    have hih := ih ⟨st.uniqueMap ++ [(generateHash q.2 fields, ⟨q.2, q.1⟩)], st.duplicates⟩
      (by
        intro q2 hq2 ke hke
        rcases List.mem_append.mp hke with hmem | hmem
        · exact hst q2 (List.mem_cons_of_mem q hq2) ke hmem
        · have hke2 : ke = (generateHash q.2 fields, ⟨q.2, q.1⟩) := by simpa using hmem
          subst hke2
          exact ⟨(hrel q2 hq2).1, (hrel q2 hq2).2⟩)
      (List.pairwise_cons.mp hpair).2
      (fun q2 hq2 => hfix q2 (List.mem_cons_of_mem q hq2))
    rw [hih]
    simp

theorem pairwise_enumFrom {α : Type} (S : α → α → Prop) :
    ∀ (l : List α) (n : Nat), l.Pairwise S →
      (l.enumFrom n).Pairwise (fun a b => S a.2 b.2) := by
  intro l
  induction l with
  | nil => intro n _; simp [List.enumFrom]
  | cons x t ih =>
    intro n hp
    simp only [List.enumFrom]
    refine List.pairwise_cons.mpr ⟨?_, ih (n + 1) (List.pairwise_cons.mp hp).2⟩
    intro b hb
    exact (List.pairwise_cons.mp hp).1 b.2 (snd_mem_of_mem_enumFrom t (n + 1) b hb)

/-- C6 amended.  Under the `oldest` strategy — the one strategy of the
four for which a merge never rewrites a stored group's representative —
`deduplicate` is idempotent: re-deduplicating its own output at the same
timestamp returns the same items in the same order with zero duplicates
reported.  (Under `newest`, `best_quality` and `merge` a merge can
rewrite a group's title, so the output can fuzzy-merge further on a
second pass — see the counterexample.) -/
theorem deduplicate_oldest_idempotent (items : List Item)
    (fields mergeFields : List String) (now : Nat) :
    (deduplicate (deduplicate items fields "oldest" mergeFields now).items
        fields "oldest" mergeFields now).items =
      (deduplicate items fields "oldest" mergeFields now).items ∧
    (deduplicate (deduplicate items fields "oldest" mergeFields now).items
        fields "oldest" mergeFields now).duplicates = [] ∧
    (deduplicate (deduplicate items fields "oldest" mergeFields now).items
        fields "oldest" mergeFields now).dupCount = 0 ∧
    (deduplicate (deduplicate items fields "oldest" mergeFields now).items
        fields "oldest" mergeFields now).unique =
      (deduplicate items fields "oldest" mergeFields now).items.length := by
  have hm : DedupInv fields now
      ((items.enum.foldl (dedupStep fields "oldest" mergeFields now) ⟨[], []⟩)).uniqueMap :=
    dedup_foldl_oldest_inv fields mergeFields now items.enum ⟨[], []⟩
      ⟨fun ke h => absurd h (List.not_mem_nil ke), List.Pairwise.nil⟩
  have hitems : (deduplicate items fields "oldest" mergeFields now).items =
      ((items.enum.foldl (dedupStep fields "oldest" mergeFields now)
        ⟨[], []⟩)).uniqueMap.map (fun ke => ke.2.item) := rfl
  have hpw : (deduplicate items fields "oldest" mergeFields now).items.Pairwise
      (fun a b => generateHash a fields ≠ generateHash b fields ∧
        isFuzzyMatch b a = false) := by
    rw [hitems]
    exact List.pairwise_map.mpr hm.2
  have hfixout : ∀ y ∈ (deduplicate items fields "oldest" mergeFields now).items,
      enrichItem y fields now = y := by
    rw [hitems]
    intro y hy
    rcases List.mem_map.mp hy with ⟨ke, hke, rfl⟩
    rcases (hm.1 ke hke).2 with ⟨x, hx⟩
    rw [hx]
    exact enrichItem_idem x fields now
  have h2 := dedup_foldl_clean fields mergeFields now
    (deduplicate items fields "oldest" mergeFields now).items.enum ⟨[], []⟩
    (fun q _ ke hke => absurd hke (List.not_mem_nil ke))
    (pairwise_enumFrom _ _ 0 hpw)
    (fun q hq => hfixout q.2 (snd_mem_of_mem_enumFrom _ 0 q hq))
  have hst2 : (deduplicate items fields "oldest" mergeFields now).items.enum.foldl
      (dedupStep fields "oldest" mergeFields now) ⟨[], []⟩ =
      ⟨(deduplicate items fields "oldest" mergeFields now).items.enum.map
        (fun q => (generateHash q.2 fields, ⟨q.2, q.1⟩)), []⟩ := by
    rw [h2]
    rfl
  have houtmap : ((deduplicate items fields "oldest" mergeFields now).items.enum.map
      (fun q => (generateHash q.2 fields, (⟨q.2, q.1⟩ : Entry)))).map
        (fun ke => ke.2.item) = (deduplicate items fields "oldest" mergeFields now).items := by
    rw [List.map_map]
    exact List.enumFrom_map_snd 0 _
  refine ⟨?_, ?_, ?_, ?_⟩
  · show ((deduplicate items fields "oldest" mergeFields now).items.enum.foldl
      (dedupStep fields "oldest" mergeFields now) ⟨[], []⟩).uniqueMap.map
        (fun ke => ke.2.item) = _
    rw [hst2]
    exact houtmap
  · show ((deduplicate items fields "oldest" mergeFields now).items.enum.foldl
      (dedupStep fields "oldest" mergeFields now) ⟨[], []⟩).duplicates = []
    rw [hst2]
  · show (((deduplicate items fields "oldest" mergeFields now).items.enum.foldl
      (dedupStep fields "oldest" mergeFields now) ⟨[], []⟩)).duplicates.length = 0
    rw [hst2]
    rfl
  · show (List.map (fun ke => ke.2.item)
      (((deduplicate items fields "oldest" mergeFields now).items.enum.foldl
        (dedupStep fields "oldest" mergeFields now) ⟨[], []⟩)).uniqueMap).length = _
    rw [hst2, houtmap]

set_option maxRecDepth 100000 in
/-- Counterexample to C6 as stated: under the default `newest` strategy a
`best`-indexed fuzzy merge rewrites the surviving group's title ("…j" →
"…jk"), and re-running `deduplicate` on the two-item output then
fuzzy-merges those two groups (11/12 > 0.85), reporting one duplicate —
so deduplicating an already-deduplicated list is not a no-op. -/
theorem deduplicate_newest_not_idempotent :
    (deduplicate
      [{ title := "abcdefghij", href := "/m/a" }, { title := "abcdefghijkl", href := "/m/c" },
        { title := "abcdefghijk", href := "/m/b" }]
      ["title", "href"] "newest" ["genre", "chapter", "rating", "description"] 7).items.length = 2 ∧
    (deduplicate
      (deduplicate
        [{ title := "abcdefghij", href := "/m/a" }, { title := "abcdefghijkl", href := "/m/c" },
          { title := "abcdefghijk", href := "/m/b" }]
        ["title", "href"] "newest" ["genre", "chapter", "rating", "description"] 7).items
      ["title", "href"] "newest" ["genre", "chapter", "rating", "description"] 7).items.length = 1 ∧
    (deduplicate
      (deduplicate
        [{ title := "abcdefghij", href := "/m/a" }, { title := "abcdefghijkl", href := "/m/c" },
          { title := "abcdefghijk", href := "/m/b" }]
        ["title", "href"] "newest" ["genre", "chapter", "rating", "description"] 7).items
      ["title", "href"] "newest" ["genre", "chapter", "rating", "description"] 7).dupCount = 1 := by
  decide

theorem runWithRetries_spec (retryAttempts retryDelay : Nat) :
    ∀ (M : Nat) (req : Request), req.attempts + M < retryAttempts →
      runWithRetries retryAttempts retryDelay M req =
        (JobOutcome.resolved (req.attempts + M),
          (List.range M).map (fun k => retryDelay * 2 ^ (req.attempts + k))) := by
  intro M
  induction M with
  | zero => intro req _; simp [runWithRetries]
  | succ M ih =>
    intro req h
    have hlt : req.attempts + 1 < retryAttempts := by omega
    have hih := ih { req with attempts := req.attempts + 1, priority := true }
      (by simp; omega)
    simp only [runWithRetries, handleError, if_pos hlt]
    rw [hih]
    have h1 : req.attempts + 1 + M = req.attempts + (M + 1) := by omega
    rw [h1]
    have h2 : (List.range (M + 1)).map (fun k => retryDelay * 2 ^ (req.attempts + k)) =
        retryDelay * 2 ^ (req.attempts + 1 - 1) ::
          (List.range M).map (fun k => retryDelay * 2 ^ (req.attempts + 1 + k)) := by
    -- range (M+1) = 0 :: map succ (range M)
      rw [List.range_succ_eq_map, List.map_cons, List.map_map]
      refine congrArg₂ _ (by simp) ?_
      refine List.map_congr_left ?_
      intro k _
      have : req.attempts + Nat.succ k = req.attempts + 1 + k := by omega
      simp [Function.comp, this]
    rw [h2]

/-- Counterexample to C1 as stated: a task failing once and then
succeeding (with `retryAttempts = 3`) resolves with a recorded attempt
counter of `1`, not `M + 1 = 2` — `attempts` is incremented only on
failure, so a successful settlement records the number of failures `M`. -/
theorem retry_recorded_attempts_cex :
    (runWithRetries 3 1000 1 ⟨false, "p", 0, 0⟩).1 = JobOutcome.resolved 1 ∧
    JobOutcome.resolved 1 ≠ JobOutcome.resolved (1 + 1) := by
  decide

/-- C1 amended.  A task failing `M` times and then succeeding, with
`M < retryAttempts`, ultimately resolves successfully with recorded
attempt counter `M` (the counter counts failures), the successive
backoff delays are `retryDelay * 2^(attempts-1)` — that is,
`retryDelay * 2^k` for `k = 0, …, M-1` — and every retry re-inserts the
request at the front of the queue marked priority. -/
theorem retry_success_resolves (retryAttempts retryDelay M : Nat) (req : Request)
    (h0 : req.attempts = 0) (hM : M < retryAttempts) :
    runWithRetries retryAttempts retryDelay M req =
      (JobOutcome.resolved M, (List.range M).map (fun k => retryDelay * 2 ^ k)) ∧
    (∀ (queue : List Request) (r : Request), r.attempts + 1 < retryAttempts →
      handleError retryAttempts retryDelay queue r =
        RetryStep.retried (retryDelay * 2 ^ (r.attempts + 1 - 1))
          ({ r with attempts := r.attempts + 1, priority := true } :: queue)) := by
  constructor
  · have hs := runWithRetries_spec retryAttempts retryDelay M req (by omega)
    rw [h0] at hs
    simpa using hs
  · intro queue r hr
    simp [handleError, if_pos hr]

/-- Witness for C1 (amended) at `retryAttempts = 3`, `retryDelay = 1000`,
`M = 2`. -/
theorem retry_success_resolves_witness :
    (⟨false, "p", 0, 5⟩ : Request).attempts = 0 ∧
    2 < 3 ∧
    (runWithRetries 3 1000 2 ⟨false, "p", 0, 5⟩ =
      (JobOutcome.resolved 2, (List.range 2).map (fun k => 1000 * 2 ^ k)) ∧
    (∀ (queue : List Request) (r : Request), r.attempts + 1 < 3 →
      handleError 3 1000 queue r =
        RetryStep.retried (1000 * 2 ^ (r.attempts + 1 - 1))
          ({ r with attempts := r.attempts + 1, priority := true } :: queue))) :=
  ⟨rfl, by decide,
    retry_success_resolves 3 1000 2 _ rfl (by decide)⟩

theorem rfnp_none_of_all_priority (q : List Request)
    (h : ∀ r ∈ q, r.priority = true) : removeFirstNonPriority q = none := by
  induction q with
  | nil => rfl
  | cons r t ih =>
    simp only [removeFirstNonPriority, h r (List.mem_cons_self r t)]
    rw [ih (fun x hx => h x (List.mem_cons_of_mem r hx))]
    simp

theorem rfnp_some_of_exists (q : List Request)
    (h : ∃ r ∈ q, r.priority = false) :
    ∃ ev rest, removeFirstNonPriority q = some (ev, rest) := by
  induction q with
  | nil => simp at h
  | cons r t ih =>
    by_cases hp : r.priority
    · obtain ⟨x, hx, hxp⟩ := h
      rcases List.mem_cons.mp hx with hxr | hxt
      · subst hxr; rw [hp] at hxp; simp at hxp
      · obtain ⟨ev, rest, hr⟩ := ih ⟨x, hxt, hxp⟩
        exact ⟨ev, r :: rest, by simp [removeFirstNonPriority, hp, hr]⟩
    · exact ⟨r, t, by simp [removeFirstNonPriority, hp]⟩

theorem rfnp_props (q : List Request) (ev : Request) (rest : List Request)
    (h : removeFirstNonPriority q = some (ev, rest)) :
    ev ∈ q ∧ ev.priority = false ∧
      q.filter (fun r => !r.priority) = ev :: rest.filter (fun r => !r.priority) := by
  induction q generalizing rest with
  | nil => simp [removeFirstNonPriority] at h
  | cons r t ih =>
    by_cases hp : r.priority
    · simp only [removeFirstNonPriority, hp] at h
      simp only [Bool.not_true, Bool.false_eq_true, if_false] at h
      cases hrt : removeFirstNonPriority t with
      | none => rw [hrt] at h; simp at h
      | some v =>
        obtain ⟨x, rest2⟩ := v
        rw [hrt] at h
        simp only [Option.some.injEq, Prod.mk.injEq] at h
        obtain ⟨hx, hrest⟩ := h
        subst hx
        obtain ⟨hmem, hprio, hfil⟩ := ih rest2 hrt
        refine ⟨List.mem_cons_of_mem r hmem, hprio, ?_⟩
        subst hrest
        simp [List.filter_cons, hp, hfil]
    · simp only [removeFirstNonPriority, hp] at h
      simp only [Bool.not_false, if_true] at h
      simp only [Option.some.injEq, Prod.mk.injEq] at h
      obtain ⟨hx, hrest⟩ := h
      subst hx
      subst hrest
      refine ⟨List.mem_cons_self _ _, by simpa using hp, ?_⟩
      simp [List.filter_cons, hp]

/-- C4.  When a submission arrives with the queue at `maxQueueSize`: if
some queued request is non-priority, the oldest such request (queued
non-priority requests sit in submission order, hypothesis `hsorted`) is
removed and its future rejected with the overflow error while the new
request is admitted (front if priority, back otherwise); if every queued
request is priority, the submission is rejected with the queue-full error
and the queue is unchanged. -/
theorem enqueue_overflow_policy (maxQueueSize : Nat) (queue : List Request)
    (req : Request) (hfull : queue.length ≥ maxQueueSize)
    (hsorted : (queue.filter (fun r => !r.priority)).Sorted
      (fun a b => a.createdAt ≤ b.createdAt)) :
    ((∃ r ∈ queue, r.priority = false) →
      ∃ ev rest, removeFirstNonPriority queue = some (ev, rest) ∧
        enqueue maxQueueSize queue req =
          (if req.priority then req :: rest else rest ++ [req],
            EnqueueResult.admitted (some (ev, QueueError.overflow))) ∧
        ev ∈ queue ∧ ev.priority = false ∧
        (∀ r ∈ queue, r.priority = false → ev.createdAt ≤ r.createdAt) ∧
        req ∈ (enqueue maxQueueSize queue req).1) ∧
    ((∀ r ∈ queue, r.priority = true) →
      enqueue maxQueueSize queue req = (queue, EnqueueResult.rejected QueueError.queueFull)) := by
  constructor
  · intro hex
    obtain ⟨ev, rest, hr⟩ := rfnp_some_of_exists queue hex
    obtain ⟨hmem, hprio, hfil⟩ := rfnp_props queue ev rest hr
    have henq : enqueue maxQueueSize queue req =
        (if req.priority then req :: rest else rest ++ [req],
          EnqueueResult.admitted (some (ev, QueueError.overflow))) := by
      unfold enqueue
      rw [if_pos hfull, hr]
    refine ⟨ev, rest, hr, henq, hmem, hprio, ?_, ?_⟩
    · intro r hrq hrp
      have hrfil : r ∈ queue.filter (fun x => !x.priority) :=
        List.mem_filter.mpr ⟨hrq, by simp [hrp]⟩
      rw [hfil] at hrfil
      rcases List.mem_cons.mp hrfil with hre | hrt
      · subst hre; exact Nat.le_refl _
      · rw [hfil] at hsorted
        exact (List.sorted_cons.mp hsorted).1 r hrt
    · rw [henq]
      by_cases hrp : req.priority <;> simp [hrp]
  · intro hall
    unfold enqueue
    rw [if_pos hfull, rfnp_none_of_all_priority queue hall]

/-- Witness for C4 on a full queue of three requests, one priority and
two non-priority. -/
theorem enqueue_overflow_policy_witness :
    ∃ ev rest, removeFirstNonPriority witnessQueue = some (ev, rest) ∧
      enqueue 3 witnessQueue witnessReq =
        (if witnessReq.priority then witnessReq :: rest else rest ++ [witnessReq],
          EnqueueResult.admitted (some (ev, QueueError.overflow))) ∧
      ev ∈ witnessQueue ∧ ev.priority = false ∧
      (∀ r ∈ witnessQueue, r.priority = false → ev.createdAt ≤ r.createdAt) ∧
      witnessReq ∈ (enqueue 3 witnessQueue witnessReq).1 :=
  (enqueue_overflow_policy 3 witnessQueue witnessReq (by decide) (by decide)).1
    (by decide)

/-!  ## Provider health (C7)  -/

/-- Counterexample to C7's "a single recorded success … restoring
default-set eligibility": a provider with 10 recorded failures gets one
success; `consecutiveFailures` resets to 0, but the record now shows 11
total attempts with a 10/11 failure ratio, so it stays excluded from the
default set. -/
theorem provider_health_success_cex :
    (updateProviderHealth ⟨0, 10, 0, none, none, 10⟩ true 5 100).consecutiveFailures = 0 ∧
    isProviderHealthy (some (updateProviderHealth ⟨0, 10, 0, none, none, 10⟩ true 5 100)) = false := by
  decide

/-- C7 amended.  A provider with a health record is excluded from default
selection exactly when it shows ≥ 5 consecutive failures, or ≥ 10 total
recorded attempts with a failure ratio strictly above 50%; a recorded
success resets `consecutiveFailures` to 0, and this restores default-set
eligibility provided the updated record does not still trip the
failure-ratio rule. -/
theorem provider_health_policy (h : ProviderHealth) (rt now : Nat)
    (hfr : ¬((updateProviderHealth h true rt now).successCount +
        (updateProviderHealth h true rt now).failureCount ≥ 10 ∧
      mkRat (updateProviderHealth h true rt now).failureCount
        ((updateProviderHealth h true rt now).successCount +
          (updateProviderHealth h true rt now).failureCount) > mkRat 1 2)) :
    (isProviderHealthy (some h) = false ↔
      (h.consecutiveFailures ≥ 5 ∨ (h.successCount + h.failureCount ≥ 10 ∧
        mkRat h.failureCount (h.successCount + h.failureCount) > mkRat 1 2))) ∧
    (updateProviderHealth h true rt now).consecutiveFailures = 0 ∧
    isProviderHealthy (some (updateProviderHealth h true rt now)) = true := by
  refine ⟨?_, ?_, ?_⟩
  · unfold isProviderHealthy
    by_cases h5 : h.consecutiveFailures ≥ 5
    · simp [h5]
    · by_cases hrat : h.successCount + h.failureCount ≥ 10 ∧
          mkRat h.failureCount (h.successCount + h.failureCount) > mkRat 1 2
      · simp [h5, hrat]
      · simp [h5, hrat]
  · simp [updateProviderHealth]
  · have hc : (updateProviderHealth h true rt now).consecutiveFailures = 0 := by
      simp [updateProviderHealth]
    simp only [isProviderHealthy, hc]
    rw [if_neg (by omega)]
    rw [if_neg (by simpa using hfr)]

/-- Witness for C7 (amended): a provider at 5 consecutive failures (among
1 success, 1 failure… here 1 success and 1 failure recorded) regains
eligibility after one success. -/
theorem provider_health_policy_witness :
    (isProviderHealthy (some ⟨1, 1, 0, none, none, 5⟩) = false ↔
      ((5 : Nat) ≥ 5 ∨ ((1 : Nat) + 1 ≥ 10 ∧ mkRat 1 (1 + 1) > mkRat 1 2))) ∧
    (updateProviderHealth ⟨1, 1, 0, none, none, 5⟩ true 7 100).consecutiveFailures = 0 ∧
    isProviderHealthy (some (updateProviderHealth ⟨1, 1, 0, none, none, 5⟩ true 7 100)) = true :=
  provider_health_policy ⟨1, 1, 0, none, none, 5⟩ 7 100 (by decide)

/-!  ## New-item detection (C8)  -/

theorem detect_fst_independent (prev : List String) :
    ∀ (data : List Item) (cur : List String) (n e : List Item),
      (data.foldl (detectStep prev) (cur, n, e)).1 =
        data.foldl
          (fun s item =>
            let h := generateHash item ["title", "href"]
            if s.contains h then s else s ++ [h]) cur := by
  intro data
  induction data with
  | nil => intro cur n e; rfl
  | cons item t ih =>
    intro cur n e
    simp only [List.foldl_cons, detectStep]
    by_cases hmem : prev.contains (generateHash item ["title", "href"]) = true
    · rw [if_pos hmem]
      exact ih _ _ _
    · rw [if_neg hmem]
      exact ih _ _ _

theorem detect_snd_eq_fingerprintSet (data : List Item) (prev : List String) :
    (detectNewItems data prev).2 = fingerprintSet data := by
  unfold detectNewItems fingerprintSet
  exact detect_fst_independent prev data [] [] []

theorem fingerprint_foldl_mono (x : String) :
    ∀ (data : List Item) (cur : List String), x ∈ cur →
      x ∈ data.foldl
        (fun s item =>
          let h := generateHash item ["title", "href"]
          if s.contains h then s else s ++ [h]) cur := by
  intro data
  induction data with
  | nil => intro cur hx; exact hx
  | cons item t ih =>
    intro cur hx
    simp only [List.foldl_cons]
    split
    · exact ih _ hx
    · exact ih _ (List.mem_append_left _ hx)

theorem fingerprint_foldl_mem (it : Item) :
    ∀ (data : List Item) (cur : List String), it ∈ data →
      generateHash it ["title", "href"] ∈ data.foldl
        (fun s item =>
          let h := generateHash item ["title", "href"]
          if s.contains h then s else s ++ [h]) cur := by
  intro data
  induction data with
  | nil => intro cur hx; simp at hx
  | cons item t ih =>
    intro cur hx
    rcases List.mem_cons.mp hx with hx | hx
    · subst hx
      simp only [List.foldl_cons]
      split
      · next hc => exact fingerprint_foldl_mono _ t _ (by simpa using hc)
      · exact fingerprint_foldl_mono _ t _ (List.mem_append_right _ (by simp))
    · simp only [List.foldl_cons]
      split
      · exact ih _ hx
      · exact ih _ hx

theorem fingerprintSet_complete (data : List Item) (it : Item) (h : it ∈ data) :
    generateHash it ["title", "href"] ∈ fingerprintSet data :=
  fingerprint_foldl_mem it data [] h

theorem detect_all_existing (prev : List String) :
    ∀ (data : List Item) (cur : List String) (n e : List Item),
      (∀ it ∈ data, generateHash it ["title", "href"] ∈ prev) →
      (data.foldl (detectStep prev) (cur, n, e)).2 = (n, e ++ data) := by
  intro data
  induction data with
  | nil => intro cur n e _; simp
  | cons item t ih =>
    intro cur n e hall
    simp only [List.foldl_cons, detectStep]
    rw [if_pos (by
      simpa using hall item (List.mem_cons_self item t))]
    rw [ih _ _ _ (fun x hx => hall x (List.mem_cons_of_mem item hx))]
    simp

theorem lookup_setIndex_self (k : String) (v : List String) :
    ∀ (idx : List (String × List String)), (setIndex idx k v).lookup k = some v := by
  intro idx
  induction idx with
  | nil => simp [setIndex, List.lookup]
  | cons kv t ih =>
    by_cases hk : kv.1 = k
    · simp [setIndex, hk, List.lookup]
    · have hbeq : (k == kv.1) = false :=
        beq_eq_false_iff_ne.mpr (fun he => hk he.symm)
      simp only [setIndex, if_neg hk, List.lookup, hbeq]
      exact ih

theorem lookup_setIndex_other (k k2 : String) (v : List String) (hne : k2 ≠ k) :
    ∀ (idx : List (String × List String)), (setIndex idx k v).lookup k2 = idx.lookup k2 := by
  intro idx
  have hbne : (k2 == k) = false := beq_eq_false_iff_ne.mpr hne
  induction idx with
  | nil => simp [setIndex, List.lookup, hbne]
  | cons kv t ih =>
    by_cases hk : kv.1 = k
    · simp only [setIndex, if_pos hk, List.lookup, hbne, hk]
    · simp only [setIndex, if_neg hk, List.lookup]
      by_cases h2 : k2 = kv.1
      · have hbeq : (k2 == kv.1) = true := beq_iff_eq.mpr h2
        simp only [hbeq]
      · have hbeq : (k2 == kv.1) = false := beq_eq_false_iff_ne.mpr h2
        simp only [hbeq]
        exact ih

/-- C8.  `detectNewItems` replaces the stored fingerprint set for its
context wholesale with the current items' fingerprint set (leaving every
other context untouched), so a second call with the same items and
context reports zero new items — every item comes back as existing, in
order. -/
theorem detectNewItems_baseline_replacement (index : List (String × List String))
    (context : String) (data : List Item) :
    ((detectNewItemsCtx index context data).2.lookup (dedupeKeyOf context) =
      some (fingerprintSet data)) ∧
    (∀ k, k ≠ dedupeKeyOf context →
      (detectNewItemsCtx index context data).2.lookup k = index.lookup k) ∧
    ((detectNewItemsCtx (detectNewItemsCtx index context data).2 context data).1.newItems = []) ∧
    ((detectNewItemsCtx (detectNewItemsCtx index context data).2 context data).1.existingItems = data) := by
  have hsnd : ∀ prev, (detectNewItems data prev).2 = fingerprintSet data :=
    fun prev => detect_snd_eq_fingerprintSet data prev
  have hlook : (detectNewItemsCtx index context data).2.lookup (dedupeKeyOf context) =
      some (fingerprintSet data) := by
    show (setIndex index (dedupeKeyOf context)
        (detectNewItems data ((index.lookup (dedupeKeyOf context)).getD [])).2).lookup
        (dedupeKeyOf context) = some (fingerprintSet data)
    rw [hsnd]
    exact lookup_setIndex_self _ _ index
  refine ⟨hlook, ?_, ?_, ?_⟩
  · intro k hk
    show (setIndex index (dedupeKeyOf context)
        (detectNewItems data ((index.lookup (dedupeKeyOf context)).getD [])).2).lookup k =
      index.lookup k
    exact lookup_setIndex_other _ k _ hk index
  · show (detectNewItems data
        (((detectNewItemsCtx index context data).2.lookup (dedupeKeyOf context)).getD [])).1.newItems = []
    rw [hlook]
    show (data.foldl (detectStep (fingerprintSet data)) ([], [], [])).2.1 = []
    rw [detect_all_existing (fingerprintSet data) data [] [] []
      (fun it hit => fingerprintSet_complete data it hit)]
  · show (detectNewItems data
        (((detectNewItemsCtx index context data).2.lookup (dedupeKeyOf context)).getD [])).1.existingItems = data
    rw [hlook]
    show (data.foldl (detectStep (fingerprintSet data)) ([], [], [])).2.2 = data
    rw [detect_all_existing (fingerprintSet data) data [] [] []
      (fun it hit => fingerprintSet_complete data it hit)]
    simp

/-!  ## Multi-provider failure policy (C2)  -/

/-- Counterexample to C2's "in every other case it returns a success
result": one provider, which fails, with `failureThreshold = 1`: the
failure rate (1) does not exceed the threshold, so the call does not
throw — but the returned result carries `success = false`, not a success
result. -/
theorem scrapeMultiProvider_success_flag_cex :
    scrapeMultiProvider [("a", none)] 1 [] "getLatest" 0 =
      Except.ok ⟨false, [], ["a"], [], ["a"], 0⟩ := by
  rfl

/-- C2 amended.  Over a non-empty provider outcome list, the whole call
throws if and only if the failed fraction strictly exceeds
`failureThreshold` and zero providers succeeded; in every other case it
returns — without throwing — a result carrying the per-provider
successful and failed lists, whose `success` flag is true exactly when
at least one provider succeeded (so with a threshold ≥ 1 and all
providers failing the call returns a non-success result). -/
theorem scrapeMultiProvider_failure_policy
    (outcomes : List (String × Option ScrapeData)) (failureThreshold : ℚ)
    (index : List (String × List String)) (operation : String) (now : Nat)
    (hne : outcomes ≠ []) :
    ((∃ e, scrapeMultiProvider outcomes failureThreshold index operation now =
        Except.error e) ↔
      (mkRat (outcomes.filter (fun o => o.2.isNone)).length outcomes.length >
          failureThreshold ∧
        (outcomes.filterMap (fun o => o.2.map (fun d => (o.1, d)))).length = 0)) ∧
    (∀ r, scrapeMultiProvider outcomes failureThreshold index operation now =
        Except.ok r →
      r.successful =
          (outcomes.filterMap (fun o => o.2.map (fun d => (o.1, d)))).map (fun x => x.1) ∧
      r.failed =
          ((outcomes.filter (fun o => o.2.isNone)).map (fun e => e.1)).filter
            (fun s => s ≠ "") ∧
      (r.success = true ↔
        0 < (outcomes.filterMap (fun o => o.2.map (fun d => (o.1, d)))).length)) := by
  have hlen : ¬(outcomes.length = 0) := by
    simpa [List.length_eq_zero] using hne
  unfold scrapeMultiProvider
  rw [if_neg hlen]
  by_cases hc : mkRat (outcomes.filter (fun o => o.2.isNone)).length outcomes.length >
      failureThreshold ∧
    (outcomes.filterMap (fun o => o.2.map (fun d => (o.1, d)))).length = 0
  · rw [if_pos hc]
    refine ⟨⟨fun _ => hc, fun _ => ⟨"Too many provider failures", rfl⟩⟩, ?_⟩
    intro r hr
    simp at hr
  · rw [if_neg hc]
    refine ⟨⟨fun he => ?_, fun hcc => absurd hcc hc⟩, ?_⟩
    · obtain ⟨e, he⟩ := he
      simp at he
    · intro r hr
      simp only [Except.ok.injEq] at hr
      subst hr
      refine ⟨rfl, rfl, ?_⟩
      simp

/-- Witness for C2 (amended): two providers, one succeeds and one fails,
threshold 1/2: the failure rate equals the threshold (does not exceed
it), so the call returns with `successful = ["a"]`, `failed = ["b"]` and
`success = true`. -/
theorem scrapeMultiProvider_failure_policy_witness :
    ((∃ e, scrapeMultiProvider [("a", some (ScrapeData.list [])), ("b", none)]
        (mkRat 1 2) [] "getLatest" 3 = Except.error e) ↔
      (mkRat ([(("a" : String), some (ScrapeData.list [])), ("b", none)].filter
            (fun o => o.2.isNone)).length 2 > mkRat 1 2 ∧
        ([(("a" : String), some (ScrapeData.list [])), ("b", none)].filterMap
            (fun o => o.2.map (fun d => (o.1, d)))).length = 0)) ∧
    (∀ r, scrapeMultiProvider [("a", some (ScrapeData.list [])), ("b", none)]
        (mkRat 1 2) [] "getLatest" 3 = Except.ok r →
      r.successful = ([(("a" : String), some (ScrapeData.list [])), ("b", none)].filterMap
          (fun o => o.2.map (fun d => (o.1, d)))).map (fun x => x.1) ∧
      r.failed = (([(("a" : String), some (ScrapeData.list [])), ("b", none)].filter
          (fun o => o.2.isNone)).map (fun e => e.1)).filter (fun s => s ≠ "") ∧
      (r.success = true ↔
        0 < ([(("a" : String), some (ScrapeData.list [])), ("b", none)].filterMap
          (fun o => o.2.map (fun d => (o.1, d)))).length)) :=
  scrapeMultiProvider_failure_policy
    [("a", some (ScrapeData.list [])), ("b", none)] (mkRat 1 2) [] "getLatest" 3
    (by decide)

/-!  ## In-flight collapsing (C5)  -/

theorem lookup_none_iff_keys {α : Type} [BEq α] [LawfulBEq α] {β : Type}
    (k : α) : ∀ (l : List (α × β)),
      l.lookup k = none ↔ ∀ p ∈ l, p.1 ≠ k := by
  intro l
  induction l with
  | nil => simp [List.lookup]
  | cons kv t ih =>
    simp only [List.lookup]
    cases hbeq : k == kv.1 with
    | true =>
      have : kv.1 = k := (beq_iff_eq.mp hbeq).symm
      simp [this]
    | false =>
      have hne : kv.1 ≠ k := fun he => by simp [he] at hbeq
      simp only [ih]
      constructor
      · intro hall p hp
        rcases List.mem_cons.mp hp with hp | hp
        · subst hp; exact hne
        · exact hall p hp
      · intro hall p hp
        exact hall p (List.mem_cons_of_mem kv hp)

theorem lookup_append_some {α : Type} [BEq α] [LawfulBEq α] {β : Type}
    (k : α) (v : β) : ∀ (l : List (α × β)), l.lookup k = none →
      (l ++ [(k, v)]).lookup k = some v := by
  intro l
  induction l with
  | nil => simp [List.lookup]
  | cons kv t ih =>
    intro hl
    simp only [List.lookup] at hl ⊢
    cases hbeq : k == kv.1 with
    | true => rw [hbeq] at hl; simp at hl
    | false =>
      rw [hbeq] at hl
      simpa using ih hl

/-- Counterexample to C5 as stated: the joining call's early return runs
the `finally`, deleting the first call's in-flight marker while its
execution is still pending — so a third call with the same key, arriving
before the first execution settles and missing the cache, finds no
marker and dispatches a second Source Adapter invocation.  Two
executions of the same operation key are then in flight at once. -/
theorem inflight_third_call_cex :
    scrapeStart ⟨[], 0, []⟩ "k" false false false true =
      (⟨[("k", 0)], 1, [("k", 0)]⟩, StartResult.started 0) ∧
    scrapeStart ⟨[("k", 0)], 1, [("k", 0)]⟩ "k" false false false true =
      (⟨[], 1, [("k", 0)]⟩, StartResult.joined 0) ∧
    scrapeStart ⟨[], 1, [("k", 0)]⟩ "k" false false false true =
      (⟨[("k", 1)], 2, [("k", 0), ("k", 1)]⟩, StartResult.started 1) := by
  decide

/-- C5 amended.  Once a first `scrape` call has registered the key and
dispatched the execution, a second concurrent call with the same key
returns the very same pending promise id and dispatches nothing — two
concurrent calls trigger exactly one Source Adapter invocation — and the
`finally` deletes the in-flight marker on every path.  But precisely
because the join's early return also runs the `finally`, the second call
deletes the first call's marker while that execution is still pending,
so a further same-key call that misses the cache dispatches a fresh
execution: "at most one execution per operation key in flight" holds
only up to two concurrent calls, not in general. -/
theorem inflight_collapse (st : OrchState) (key : String)
    (c1 s1 f1 t1 c2 s2 f2 t2 : Bool) (st1 : OrchState) (pid : Nat)
    (hnodup : (st.active.map Prod.fst).Nodup)
    (h1 : scrapeStart st key c1 s1 f1 t1 = (st1, StartResult.started pid)) :
    scrapeStart st1 key c2 s2 f2 t2 = (scrapeFinish st1 key, StartResult.joined pid) ∧
    st1.dispatchLog = st.dispatchLog ++ [(key, pid)] ∧
    (scrapeFinish st1 key).dispatchLog = st1.dispatchLog ∧
    (st1.active.map Prod.fst).count key = 1 ∧
    (st1.active.map Prod.fst).Nodup ∧
    (scrapeFinish st1 key).active.lookup key = none ∧
    ((scrapeFinish st1 key).active.map Prod.fst).Nodup ∧
    (∀ s3 f3 t3 : Bool,
      scrapeStart (scrapeFinish st1 key) key false s3 f3 t3 =
        (⟨(scrapeFinish st1 key).active ++ [(key, st1.nextId)], st1.nextId + 1,
            st1.dispatchLog ++ [(key, st1.nextId)]⟩,
          StartResult.started st1.nextId)) := by
  -- extract the started branch from the first call
  unfold scrapeStart at h1
  cases hl : st.active.lookup key with
  | some pid0 => rw [hl] at h1; simp at h1
  | none =>
    rw [hl] at h1
    by_cases hb1 : !s1 ∧ !f1 ∧ c1
    · rw [if_pos hb1] at h1; simp at h1
    · rw [if_neg hb1] at h1
      by_cases hb2 : !t1 ∧ !f1 ∧ c1
      · rw [if_pos hb2] at h1; simp at h1
      · rw [if_neg hb2] at h1
        simp only [Prod.mk.injEq, StartResult.started.injEq] at h1
        obtain ⟨hst1, hpid⟩ := h1
        subst hpid
        subst hst1
        have hkeys : ∀ p ∈ st.active, p.1 ≠ key := (lookup_none_iff_keys key st.active).mp hl
        have hnotmem : key ∉ st.active.map Prod.fst := by
          intro hmem
          rcases List.mem_map.mp hmem with ⟨p, hp, hpk⟩
          exact hkeys p hp hpk
        have hlook1 : (st.active ++ [(key, st.nextId)]).lookup key = some st.nextId :=
          lookup_append_some key st.nextId st.active hl
        have hlookF : ((scrapeFinish ⟨st.active ++ [(key, st.nextId)], st.nextId + 1,
            st.dispatchLog ++ [(key, st.nextId)]⟩ key).active).lookup key = none := by
          rw [lookup_none_iff_keys]
          intro p hp
          have hpne := (List.mem_filter.mp hp).2
          simpa using hpne
        refine ⟨?_, rfl, rfl, ?_, ?_, hlookF, ?_, ?_⟩
        · unfold scrapeStart
          simp only [hlook1]
        · simp only [List.map_append, List.count_append]
          rw [List.count_eq_zero.mpr hnotmem]
          simp
        · simp only [List.map_append]
          rw [List.nodup_append]
          exact ⟨hnodup, List.nodup_singleton key, by simpa using hnotmem⟩
        · have hsub : ((st.active ++ [(key, st.nextId)]).filter
              (fun kp => kp.1 ≠ key)).map Prod.fst |>.Sublist
              (((st.active ++ [(key, st.nextId)])).map Prod.fst) :=
            (List.filter_sublist _).map Prod.fst
          refine hsub.nodup ?_
          simp only [List.map_append]
          rw [List.nodup_append]
          exact ⟨hnodup, List.nodup_singleton key, by simpa using hnotmem⟩
        · intro s3 f3 t3
          unfold scrapeStart
          simp only [hlookF]
          rw [if_neg (by simp), if_neg (by simp)]
          rfl

/-- Witness for C5 (amended) from the empty orchestrator state: the
first call dispatches execution 0, the second joins it (and deletes the
marker), and any third cache-missing call dispatches execution 1. -/
theorem inflight_collapse_witness :
    scrapeStart ⟨[("k:getLatest:1", 0)], 1, [("k:getLatest:1", 0)]⟩ "k:getLatest:1"
        false false false true =
      (scrapeFinish ⟨[("k:getLatest:1", 0)], 1, [("k:getLatest:1", 0)]⟩ "k:getLatest:1",
        StartResult.joined 0) ∧
    (⟨[("k:getLatest:1", 0)], 1, [("k:getLatest:1", 0)]⟩ : OrchState).dispatchLog =
      ([] : List (String × Nat)) ++ [("k:getLatest:1", 0)] ∧
    (scrapeFinish ⟨[("k:getLatest:1", 0)], 1, [("k:getLatest:1", 0)]⟩
        "k:getLatest:1").dispatchLog =
      (⟨[("k:getLatest:1", 0)], 1, [("k:getLatest:1", 0)]⟩ : OrchState).dispatchLog ∧
    ((⟨[("k:getLatest:1", 0)], 1, [("k:getLatest:1", 0)]⟩ : OrchState).active.map
      Prod.fst).count "k:getLatest:1" = 1 ∧
    ((⟨[("k:getLatest:1", 0)], 1, [("k:getLatest:1", 0)]⟩ : OrchState).active.map
      Prod.fst).Nodup ∧
    (scrapeFinish ⟨[("k:getLatest:1", 0)], 1, [("k:getLatest:1", 0)]⟩
      "k:getLatest:1").active.lookup "k:getLatest:1" = none ∧
    ((scrapeFinish ⟨[("k:getLatest:1", 0)], 1, [("k:getLatest:1", 0)]⟩
      "k:getLatest:1").active.map Prod.fst).Nodup ∧
    (∀ s3 f3 t3 : Bool,
      scrapeStart (scrapeFinish ⟨[("k:getLatest:1", 0)], 1, [("k:getLatest:1", 0)]⟩
          "k:getLatest:1") "k:getLatest:1" false s3 f3 t3 =
        (⟨(scrapeFinish ⟨[("k:getLatest:1", 0)], 1, [("k:getLatest:1", 0)]⟩
            "k:getLatest:1").active ++ [("k:getLatest:1", 1)], 1 + 1,
            [("k:getLatest:1", 0)] ++ [("k:getLatest:1", 1)]⟩,
          StartResult.started 1)) :=
  inflight_collapse ⟨[], 0, []⟩ "k:getLatest:1" false false false true
    false false false true ⟨[("k:getLatest:1", 0)], 1, [("k:getLatest:1", 0)]⟩ 0
    (by simp) (by rfl)

/-!  ## Pagination stop-on-empty (C9)  -/

theorem pagSuccess_stop_of_second_empty (sd : Bool) (thr : ℚ) (now cp : Nat)
    (st : PagState) (pg : Option (Option Nat × Option Nat))
    (hconsec : 1 ≤ st.consecutiveEmpty) :
    pagSuccess true sd thr now cp st [] pg =
      LoopCmd.stop { st with consecutiveEmpty := st.consecutiveEmpty + 1 } := by
  unfold pagSuccess
  rw [if_pos ⟨rfl, rfl, by omega⟩]
  simp

theorem pagSuccess_logs (se sd : Bool) (thr : ℚ) (now cp : Nat) (st : PagState)
    (pageData : List Item) (pg : Option (Option Nat × Option Nat)) :
    ∀ st2, (pagSuccess se sd thr now cp st pageData pg = LoopCmd.stop st2 ∨
        pagSuccess se sd thr now cp st pageData pg = LoopCmd.next st2) →
      st2.pageResults = st.pageResults ∨
        st2.pageResults = st.pageResults ++ [⟨cp, pageData.length, true, none⟩] := by
  intro st2 hcmd
  unfold pagSuccess at hcmd
  rcases hcmd with hcmd | hcmd <;>
  · repeat' split at hcmd
    all_goals
      first
        | (injection hcmd with h; subst h; simp)
        | simp at hcmd

theorem pagSuccess_next_empty_consec (se sd : Bool) (thr : ℚ) (now cp : Nat)
    (st : PagState) (pg : Option (Option Nat × Option Nat)) (st2 : PagState)
    (hcmd : pagSuccess se sd thr now cp st [] pg = LoopCmd.next st2) :
    st2.consecutiveEmpty = st.consecutiveEmpty + 1 := by
  unfold pagSuccess at hcmd
  repeat' split at hcmd
  all_goals
    first
      | (injection hcmd with h; subst h; simp_all)
      | simp_all

theorem pagLoop_two_empty (fetch fetch2 : Nat → PageFetch) (sd : Bool) (thr : ℚ)
    (now N : Nat)
    (h1 : pageEmpty (fetch N) = true) (h2 : pageEmpty (fetch (N + 1)) = true)
    (hagree : ∀ p, p ≤ N + 1 → fetch2 p = fetch p) :
    ∀ (remaining currentPage : Nat) (st : PagState),
      currentPage ≤ N + 1 → (currentPage = N + 1 → 1 ≤ st.consecutiveEmpty) →
      (∀ log ∈ (pagLoop fetch true sd thr now remaining currentPage st).pageResults,
        log ∈ st.pageResults ∨ log.page ≤ N + 1) ∧
      pagLoop fetch2 true sd thr now remaining currentPage st =
        pagLoop fetch true sd thr now remaining currentPage st := by
  intro remaining
  induction remaining with
  | zero => intro cp st _ _; exact ⟨fun log hl => Or.inl hl, rfl⟩
  | succ rem ih =>
    intro cp st hcp hside
    have hf2 : fetch2 cp = fetch cp := hagree cp hcp
    cases hf : fetch cp with
    | failure msg =>
      constructor
      · simp only [pagLoop, hf]
        intro log hl
        rcases List.mem_append.mp hl with hl | hl
        · exact Or.inl hl
        · right
          have hlog : log = ⟨cp, 0, false, some msg⟩ := by simpa using hl
          rw [hlog]
          exact hcp
      · simp [pagLoop, hf, hf2]
    | items data =>
      cases hcmd : pagSuccess true sd thr now cp st data none with
      | stop st2 =>
        constructor
        · simp only [pagLoop, hf, hcmd]
          intro log hl
          rcases pagSuccess_logs true sd thr now cp st data none st2 (Or.inl hcmd) with hpr | hpr
          · rw [hpr] at hl; exact Or.inl hl
          · rw [hpr] at hl
            rcases List.mem_append.mp hl with hl | hl
            · exact Or.inl hl
            · right
              have hlog : log = ⟨cp, data.length, true, none⟩ := by simpa using hl
              rw [hlog]; exact hcp
        · simp only [pagLoop, hf, hf2, hcmd]
      | next st2 =>
        have hnot_top : cp ≠ N + 1 := by
          intro hcpN
          subst hcpN
          have hd : data = [] := by
            rw [hf] at h2
            simpa [pageEmpty, List.isEmpty_iff] using h2
          subst hd
          rw [pagSuccess_stop_of_second_empty sd thr now _ st none (hside rfl)] at hcmd
          simp at hcmd
        have hcp1 : cp + 1 ≤ N + 1 := by omega
        have hside1 : cp + 1 = N + 1 → 1 ≤ st2.consecutiveEmpty := by
          intro heq
          have hcpN : cp = N := by omega
          have hd : data = [] := by
            subst hcpN
            rw [hf] at h1
            simpa [pageEmpty, List.isEmpty_iff] using h1
          subst hd
          rw [pagSuccess_next_empty_consec true sd thr now cp st none st2 hcmd]
          omega
        obtain ⟨ihlogs, iheq⟩ := ih (cp + 1) st2 hcp1 hside1
        constructor
        · simp only [pagLoop, hf, hcmd]
          intro log hl
          rcases ihlogs log hl with hl2 | hl2
          · rcases pagSuccess_logs true sd thr now cp st data none st2 (Or.inr hcmd) with hpr | hpr
            · rw [hpr] at hl2; exact Or.inl hl2
            · rw [hpr] at hl2
              rcases List.mem_append.mp hl2 with hl3 | hl3
              · exact Or.inl hl3
              · right
                have hlog : log = ⟨cp, data.length, true, none⟩ := by simpa using hl3
                rw [hlog]; exact hcp
          · exact Or.inr hl2
        · simp only [pagLoop, hf, hf2, hcmd]
          exact iheq
    | paged data pcp plp =>
      cases hcmd : pagSuccess true sd thr now cp st data (some (pcp, plp)) with
      | stop st2 =>
        constructor
        · simp only [pagLoop, hf, hcmd]
          intro log hl
          rcases pagSuccess_logs true sd thr now cp st data (some (pcp, plp)) st2
              (Or.inl hcmd) with hpr | hpr
          · rw [hpr] at hl; exact Or.inl hl
          · rw [hpr] at hl
            rcases List.mem_append.mp hl with hl | hl
            · exact Or.inl hl
            · right
              have hlog : log = ⟨cp, data.length, true, none⟩ := by simpa using hl
              rw [hlog]; exact hcp
        · simp only [pagLoop, hf, hf2, hcmd]
      | next st2 =>
        have hnot_top : cp ≠ N + 1 := by
          intro hcpN
          subst hcpN
          have hd : data = [] := by
            rw [hf] at h2
            simpa [pageEmpty, List.isEmpty_iff] using h2
          subst hd
          rw [pagSuccess_stop_of_second_empty sd thr now _ st (some (pcp, plp))
            (hside rfl)] at hcmd
          simp at hcmd
        have hcp1 : cp + 1 ≤ N + 1 := by omega
        have hside1 : cp + 1 = N + 1 → 1 ≤ st2.consecutiveEmpty := by
          intro heq
          have hcpN : cp = N := by omega
          have hd : data = [] := by
            subst hcpN
            rw [hf] at h1
            simpa [pageEmpty, List.isEmpty_iff] using h1
          subst hd
          rw [pagSuccess_next_empty_consec true sd thr now cp st (some (pcp, plp))
            st2 hcmd]
          omega
        obtain ⟨ihlogs, iheq⟩ := ih (cp + 1) st2 hcp1 hside1
        constructor
        · simp only [pagLoop, hf, hcmd]
          intro log hl
          rcases ihlogs log hl with hl2 | hl2
          · rcases pagSuccess_logs true sd thr now cp st data (some (pcp, plp)) st2
                (Or.inr hcmd) with hpr | hpr
            · rw [hpr] at hl2; exact Or.inl hl2
            · rw [hpr] at hl2
              rcases List.mem_append.mp hl2 with hl3 | hl3
              · exact Or.inl hl3
              · right
                have hlog : log = ⟨cp, data.length, true, none⟩ := by simpa using hl3
                rw [hlog]; exact hcp
          · exact Or.inr hl2
        · simp only [pagLoop, hf, hf2, hcmd]
          exact iheq

/-- C9 amended.  With `stopOnEmpty` enabled, if pages `N` and `N+1` both
return zero items, the page loop never attempts a page beyond `N+1`
(every `pageResults` entry has `page ≤ N+1`), and the whole result is
unchanged under any page oracle agreeing up to page `N+1` — so the final
data contains nothing from any page beyond `N+1`.  (With `stopOnEmpty`
disabled the source skips the consecutive-empty check entirely — see the
counterexample.) -/
theorem scrapePaginated_stop_on_two_empty (fetch fetch2 : Nat → PageFetch)
    (maxPages startPage N : Nat) (sd : Bool) (thr : ℚ) (now : Nat)
    (hN : startPage ≤ N)
    (h1 : pageEmpty (fetch N) = true) (h2 : pageEmpty (fetch (N + 1)) = true)
    (hagree : ∀ p, p ≤ N + 1 → fetch2 p = fetch p) :
    (∀ log ∈ (scrapePaginated fetch maxPages startPage true sd thr now).pageResults,
      log.page ≤ N + 1) ∧
    scrapePaginated fetch2 maxPages startPage true sd thr now =
      scrapePaginated fetch maxPages startPage true sd thr now := by
  obtain ⟨hlogs, heq⟩ := pagLoop_two_empty fetch fetch2 sd thr now N h1 h2 hagree
    maxPages startPage ⟨[], [], 0, none⟩ (by omega) (by omega)
  constructor
  · intro log hl
    have hl2 : log ∈ (pagLoop fetch true sd thr now maxPages startPage
        ⟨[], [], 0, none⟩).pageResults := hl
    rcases hlogs log hl2 with hmem | hle
    · simp at hmem
    · exact hle
  · unfold scrapePaginated
    rw [heq]

/-- Counterexample to C9 as stated: with `stopOnEmpty = false` the
consecutive-empty rule never fires, so after pages 1 and 2 both return
zero items the loop still fetches page 3 and the final data includes its
item. -/
theorem scrapePaginated_stopOnEmpty_false_cex :
    (scrapePaginated cexFetch 3 1 false true (mkRat 4 5) 0).pageResults =
      [⟨1, 0, true, none⟩, ⟨2, 0, true, none⟩, ⟨3, 1, true, none⟩] ∧
    (scrapePaginated cexFetch 3 1 false true (mkRat 4 5) 0).data ≠ [] := by
  decide

/-- Witness for C9 (amended) at `startPage = N = 1`, `maxPages = 5`. -/
theorem scrapePaginated_stop_on_two_empty_witness :
    (∀ log ∈ (scrapePaginated emptyFetch 5 1 true true (mkRat 4 5) 0).pageResults,
      log.page ≤ 2) ∧
    scrapePaginated emptyFetch2 5 1 true true (mkRat 4 5) 0 =
      scrapePaginated emptyFetch 5 1 true true (mkRat 4 5) 0 :=
  scrapePaginated_stop_on_two_empty emptyFetch emptyFetch2 5 1 1 true (mkRat 4 5) 0
    (by decide) (by decide) (by decide)
    (fun p hp => by
      interval_cases p <;> rfl)
